import Mathlib

/-!
Shallow embedding of the cache-aside configuration / secret store
(`src/database/operations.py`) and of the event relay
(`src/cogs/logging_cog.py`) of the openguard repository, together with
executable models of the external collaborators they use (the `json`
module, Fernet encryption, `datetime`) and of the repository modules that
are not part of the source tree (`database/cache.py`,
`database/connection.py`, `logging_helpers/settings_manager`), the latter
modelled from the specification's contracts.
-/

namespace OpenGuard

/-! ## JSON documents

Model of Python's JSON-serializable values as stored by the configuration
store: `null`, booleans, integers, strings, lists and string-keyed
objects.  Floating point numbers are outside the embedding.  The three
types are mutually inductive so that structural induction over documents
is available.
-/

mutual
inductive Json where
  | null : Json
  | bool (b : Bool) : Json
  | num (n : Int) : Json
  | str (s : String) : Json
  | arr (elems : JsonArr) : Json
  | obj (fields : JsonObj) : Json

inductive JsonArr where
  | nil : JsonArr
  | cons (hd : Json) (tl : JsonArr) : JsonArr

inductive JsonObj where
  | nil : JsonObj
  | cons (k : String) (v : Json) (tl : JsonObj) : JsonObj
end

deriving instance DecidableEq for Json
deriving instance DecidableEq for JsonArr
deriving instance DecidableEq for JsonObj

/-! ## Decimal digits

Helpers used by the model of number serialization (`json.dumps` prints
integers in decimal) and of `datetime.isoformat`.
-/

/-- The character for the decimal digit `d` (meaningful for `d < 10`). -/
def digitCh (d : Nat) : Char := Char.ofNat (48 + d)

/-- Numeric value of a decimal digit character. -/
def chDigitVal (c : Char) : Nat := c.toNat - 48

/-- Base-10 digits of `n`, most significant first; fuel-driven so that the
definition reduces definitionally. -/
def natDigitsAux : Nat → Nat → List Nat
  | 0, _ => []
  | fuel + 1, n => if n < 10 then [n] else natDigitsAux fuel (n / 10) ++ [n % 10]

/-- Base-10 digits of `n`, most significant first. -/
def natDigits (n : Nat) : List Nat := natDigitsAux (n + 1) n

/-- Reconstruct a number from its base-10 digits (most significant first). -/
def ofDigits (l : List Nat) : Nat := l.foldl (fun a d => 10 * a + d) 0

theorem ofDigits_append (l₁ l₂ : List Nat) :
    ofDigits (l₁ ++ l₂) = l₂.foldl (fun a d => 10 * a + d) (ofDigits l₁) := by
  simp [ofDigits, List.foldl_append]

theorem natDigitsAux_spec (fuel n : Nat) (h : n < fuel) :
    ofDigits (natDigitsAux fuel n) = n ∧
    (∀ d ∈ natDigitsAux fuel n, d < 10) ∧ natDigitsAux fuel n ≠ [] := by
  induction fuel generalizing n with
  | zero => omega
  | succ fuel ih =>
    by_cases hn : n < 10
    · refine ⟨?_, ?_, ?_⟩ <;> simp [natDigitsAux, hn, ofDigits]
    · have hrec : n / 10 < fuel := by
        have h1 : n / 10 < n := Nat.div_lt_self (by omega) (by omega)
        omega
      obtain ⟨h1, h2, h3⟩ := ih (n / 10) hrec
      refine ⟨?_, ?_, ?_⟩
      · simp only [natDigitsAux, if_neg hn, ofDigits_append, h1, List.foldl_cons,
          List.foldl_nil]
        omega
      · intro d hd
        simp only [natDigitsAux, if_neg hn, List.mem_append, List.mem_singleton] at hd
        rcases hd with hd | hd
        · exact h2 d hd
        · omega
      · simp [natDigitsAux, if_neg hn]

theorem ofDigits_natDigits (n : Nat) : ofDigits (natDigits n) = n :=
  (natDigitsAux_spec (n + 1) n (by omega)).1

theorem natDigits_lt (n : Nat) : ∀ d ∈ natDigits n, d < 10 :=
  (natDigitsAux_spec (n + 1) n (by omega)).2.1

theorem natDigits_ne_nil (n : Nat) : natDigits n ≠ [] :=
  (natDigitsAux_spec (n + 1) n (by omega)).2.2

theorem natDigitsAux_length (fuel n k : Nat) (h : n < fuel) (hk : n < 10 ^ k)
    (hk0 : 0 < k) : (natDigitsAux fuel n).length ≤ k := by
  induction fuel generalizing n k with
  | zero => omega
  | succ fuel ih =>
    by_cases hn : n < 10
    · simp [natDigitsAux, hn]
      omega
    · have hrec : n / 10 < fuel := by
        have h1 : n / 10 < n := Nat.div_lt_self (by omega) (by omega)
        omega
      have hk1 : 1 < k := by
        rcases Nat.lt_or_ge 1 k with h' | h'
        · exact h'
        · exfalso
          interval_cases k
          omega
      have hdiv : n / 10 < 10 ^ (k - 1) := by
        have : 10 ^ k = 10 ^ (k - 1) * 10 := by
          rw [← pow_succ]
          congr 1
          omega
        rw [this] at hk
        omega
      have := ih (n / 10) (k - 1) hrec hdiv (by omega)
      simp only [natDigitsAux, if_neg hn, List.length_append, List.length_singleton]
      omega

theorem natDigits_length_le (n k : Nat) (hk : n < 10 ^ k) (hk0 : 0 < k) :
    (natDigits n).length ≤ k :=
  natDigitsAux_length (n + 1) n k (by omega) hk hk0

/-- Decimal character rendering of a natural number. -/
def natChars (n : Nat) : List Char := (natDigits n).map digitCh

theorem natChars_ne_nil (n : Nat) : natChars n ≠ [] := by
  simp [natChars, natDigits_ne_nil n]

/-- `digitCh` produces digit characters for digit values. -/
theorem digitCh_isDigit {d : Nat} (h : d < 10) : (digitCh d).isDigit := by
  interval_cases d <;> decide

theorem chDigitVal_digitCh {d : Nat} (h : d < 10) : chDigitVal (digitCh d) = d := by
  interval_cases d <;> decide

theorem natChars_digits (n : Nat) : ∀ c ∈ natChars n, c.isDigit := by
  intro c hc
  simp only [natChars, List.mem_map] at hc
  obtain ⟨d, hd, rfl⟩ := hc
  exact digitCh_isDigit (natDigits_lt n d hd)

/-- Decimal character rendering of an integer (`json.dumps` of a Python int). -/
def intChars (n : Int) : List Char :=
  if n < 0 then '-' :: natChars n.natAbs else natChars n.toNat

/-! ## The JSON encoder

Model of `json.dumps` with the default separators (`", "` between items,
`": "` between a key and its value).  Strings are escaped the way the
`json` module escapes them: `"` and `\` get a backslash escape and control
characters become `\u00XX` sequences; other characters are emitted as
they are. -/

/-- Lower-case hexadecimal digit character (meaningful for `d < 16`). -/
def hexDigitCh (d : Nat) : Char :=
  Char.ofNat (if d < 10 then 48 + d else 87 + d)

/-- Escape a single character the way `json.dumps` renders characters
inside a string literal. -/
def encodeChar (c : Char) : List Char :=
  if c = '"' then ['\\', '"']
  else if c = '\\' then ['\\', '\\']
  else if c.toNat < 32 then
    ['\\', 'u', '0', '0', hexDigitCh (c.toNat / 16), hexDigitCh (c.toNat % 16)]
  else [c]

/-- Escape every character of a string body. -/
def encChars : List Char → List Char
  | [] => []
  | c :: cs => encodeChar c ++ encChars cs

/-- Render a JSON string literal, quotes included. -/
def encodeStringCh (s : String) : List Char := '"' :: (encChars s.data ++ ['"'])

mutual
/-- Characters of the `json.dumps` rendering of a document. -/
def Json.encodeCh : Json → List Char
  | .null => "null".data
  | .bool b => if b then "true".data else "false".data
  | .num n => intChars n
  | .str s => encodeStringCh s
  | .arr l => '[' :: (JsonArr.encElems l ++ [']'])
  | .obj l => '{' :: (JsonObj.encFlds l ++ ['}'])

/-- Elements of an array, separated by `", "`. -/
def JsonArr.encElems : JsonArr → List Char
  | .nil => []
  | .cons v tl => Json.encodeCh v ++ JsonArr.encTail tl

/-- Trailing elements of an array, each preceded by `", "`. -/
def JsonArr.encTail : JsonArr → List Char
  | .nil => []
  | .cons v tl => ',' :: ' ' :: (Json.encodeCh v ++ JsonArr.encTail tl)

/-- Fields of an object, separated by `", "`, with `": "` after each key. -/
def JsonObj.encFlds : JsonObj → List Char
  | .nil => []
  | .cons k v tl => encodeStringCh k ++ ':' :: ' ' :: (Json.encodeCh v ++ JsonObj.encTail tl)

/-- Trailing fields of an object, each preceded by `", "`. -/
def JsonObj.encTail : JsonObj → List Char
  | .nil => []
  | .cons k v tl =>
      ',' :: ' ' :: (encodeStringCh k ++ ':' :: ' ' :: (Json.encodeCh v ++ JsonObj.encTail tl))
end

/-- Model of `json.dumps`. -/
def Json.dumps (v : Json) : String := String.mk v.encodeCh

/-! ## The JSON parser

Model of `json.loads`: a recursive-descent parser driven by a fuel
argument (kept structural so that the definitions reduce inside the
kernel).  `loads` accepts exactly one document, allowing surrounding
whitespace, and fails on anything else. -/

/-- JSON whitespace. -/
def isWsCh (c : Char) : Bool := c == ' ' || c == '\n' || c == '\t' || c == '\r'

/-- Drop leading JSON whitespace. -/
def skipWs : List Char → List Char
  | [] => []
  | c :: cs => if isWsCh c then skipWs cs else c :: cs

/-- Value of a hexadecimal digit character. -/
def hexVal (c : Char) : Option Nat :=
  if '0' ≤ c ∧ c ≤ '9' then some (c.toNat - 48)
  else if 'a' ≤ c ∧ c ≤ 'f' then some (c.toNat - 87)
  else if 'A' ≤ c ∧ c ≤ 'F' then some (c.toNat - 55)
  else none

/-- Replacement character for the single-character escapes `\" \\ \/ \b \f \n \r \t`. -/
def escCharVal (e : Char) : Option Char :=
  if e = '"' then some '"'
  else if e = '\\' then some '\\'
  else if e = '/' then some '/'
  else if e = 'b' then some (Char.ofNat 8)
  else if e = 'f' then some (Char.ofNat 12)
  else if e = 'n' then some '\n'
  else if e = 'r' then some '\r'
  else if e = 't' then some '\t'
  else none

mutual
/-- Parse the body of a string literal (after the opening quote), returning
the unescaped characters and the input after the closing quote. -/
def parseStringChars : List Char → Option (List Char × List Char)
  | [] => none
  | c :: rest =>
    if c = '"' then some ([], rest)
    else if c = '\\' then parseEsc rest
    else (parseStringChars rest).map (fun p => (c :: p.1, p.2))

/-- Parse the remainder of a string body just after a backslash. -/
def parseEsc : List Char → Option (List Char × List Char)
  | [] => none
  | e :: r =>
    if e = 'u' then
      match r with
      | h1 :: h2 :: h3 :: h4 :: r2 =>
        match hexVal h1, hexVal h2, hexVal h3, hexVal h4 with
        | some a, some b, some c, some d =>
          (parseStringChars r2).map
            (fun p => (Char.ofNat (((a * 16 + b) * 16 + c) * 16 + d) :: p.1, p.2))
        | _, _, _, _ => none
      | _ => none
    else
      match escCharVal e with
      | some d => (parseStringChars r).map (fun p => (d :: p.1, p.2))
      | none => none
end

/-- Split off a (possibly empty) run of leading decimal digits. -/
def spanDigits : List Char → List Char × List Char
  | [] => ([], [])
  | c :: cs =>
    if c.isDigit then
      let p := spanDigits cs
      (c :: p.1, p.2)
    else ([], c :: cs)

/-- Numeric value of a run of decimal digit characters. -/
def digitsVal (ds : List Char) : Nat := ds.foldl (fun a c => 10 * a + chDigitVal c) 0

/-- Parse a nonempty run of decimal digits. -/
def parseNatChars (cs : List Char) : Option (Nat × List Char) :=
  let p := spanDigits cs
  if p.1.isEmpty then none else some (digitsVal p.1, p.2)

/-- Parse an optionally negated decimal integer. -/
def parseIntChars : List Char → Option (Int × List Char)
  | [] => none
  | c :: rest =>
    if c = '-' then (parseNatChars rest).map (fun p => (-(p.1 : Int), p.2))
    else (parseNatChars (c :: rest)).map (fun p => ((p.1 : Int), p.2))

/-- One dispatch step of the value parser, abstracted over the parsers for
nonempty array elements (`pe`) and nonempty object fields (`pf`). -/
def parseValStep (pe : List Char → Option (JsonArr × List Char))
    (pf : List Char → Option (JsonObj × List Char)) :
    List Char → Option (Json × List Char)
  | [] => none
  | c :: rest =>
    if c.isDigit || c == '-' then
      (parseIntChars (c :: rest)).map (fun p => (Json.num p.1, p.2))
    else if c = 'n' then
      match rest with
      | 'u' :: 'l' :: 'l' :: r => some (.null, r)
      | _ => none
    else if c = 't' then
      match rest with
      | 'r' :: 'u' :: 'e' :: r => some (.bool true, r)
      | _ => none
    else if c = 'f' then
      match rest with
      | 'a' :: 'l' :: 's' :: 'e' :: r => some (.bool false, r)
      | _ => none
    else if c = '"' then
      (parseStringChars rest).map (fun p => (.str (String.mk p.1), p.2))
    else if c = '[' then
      let r := skipWs rest
      if r.head? = some ']' then some (.arr .nil, r.tail)
      else (pe r).map (fun p => (.arr p.1, p.2))
    else if c = '{' then
      let r := skipWs rest
      if r.head? = some '}' then some (.obj .nil, r.tail)
      else (pf r).map (fun p => (.obj p.1, p.2))
    else none

/-- After an array element has been parsed: expect `", "` and further
elements, or the closing `]`. -/
def elemsAfterVal (pe : List Char → Option (JsonArr × List Char)) (v : Json)
    (cs : List Char) : Option (JsonArr × List Char) :=
  match skipWs cs with
  | ',' :: r2 =>
    match pe (skipWs r2) with
    | some q => some (JsonArr.cons v q.1, q.2)
    | none => none
  | ']' :: r2 => some (JsonArr.cons v JsonArr.nil, r2)
  | _ => none

/-- One step of the array-element parser, abstracted over the value parser
`pj` and the continuation `pe` for the remaining elements. -/
def parseElemsStep (pj : List Char → Option (Json × List Char))
    (pe : List Char → Option (JsonArr × List Char)) (cs : List Char) :
    Option (JsonArr × List Char) :=
  match pj cs with
  | some p => elemsAfterVal pe p.1 p.2
  | none => none

/-- After an object field's value has been parsed: expect `", "` and further
fields, or the closing `}`. -/
def fieldsAfterVal (pf : List Char → Option (JsonObj × List Char))
    (k : List Char) (v : Json) (cs : List Char) : Option (JsonObj × List Char) :=
  match skipWs cs with
  | ',' :: r4 =>
    match pf (skipWs r4) with
    | some w => some (JsonObj.cons (String.mk k) v w.1, w.2)
    | none => none
  | '}' :: r4 => some (JsonObj.cons (String.mk k) v JsonObj.nil, r4)
  | _ => none

/-- After an object key has been parsed: expect `": "` and the value. -/
def fieldsAfterKey (pj : List Char → Option (Json × List Char))
    (pf : List Char → Option (JsonObj × List Char)) (k : List Char)
    (cs : List Char) : Option (JsonObj × List Char) :=
  match skipWs cs with
  | ':' :: r2 =>
    match pj (skipWs r2) with
    | some q => fieldsAfterVal pf k q.1 q.2
    | none => none
  | _ => none

/-- One step of the object-field parser, abstracted over the value parser
`pj` and the continuation `pf` for the remaining fields. -/
def parseFieldsStep (pj : List Char → Option (Json × List Char))
    (pf : List Char → Option (JsonObj × List Char)) (cs : List Char) :
    Option (JsonObj × List Char) :=
  match cs with
  | '"' :: r =>
    match parseStringChars r with
    | some p => fieldsAfterKey pj pf p.1 p.2
    | none => none
  | _ => none

mutual
/-- Parse one JSON value, returning it and the unconsumed input. -/
def parseJson : Nat → List Char → Option (Json × List Char)
  | 0, _ => none
  | fuel + 1, cs => parseValStep (parseElems fuel) (parseFields fuel) (skipWs cs)

/-- Parse the elements of a nonempty array up to and including `]`. -/
def parseElems : Nat → List Char → Option (JsonArr × List Char)
  | 0, _ => none
  | fuel + 1, cs => parseElemsStep (parseJson fuel) (parseElems fuel) cs

/-- Parse the fields of a nonempty object up to and including `}`. -/
def parseFields : Nat → List Char → Option (JsonObj × List Char)
  | 0, _ => none
  | fuel + 1, cs => parseFieldsStep (parseJson fuel) (parseFields fuel) cs
end

/-! ## Round trip: parsing inverts encoding -/

/-- A decimal digit character is none of the JSON structural characters. -/
theorem digit_facts {c : Char} (h : c.isDigit = true) :
    c ≠ 'n' ∧ c ≠ 't' ∧ c ≠ 'f' ∧ c ≠ '"' ∧ c ≠ '[' ∧ c ≠ '{' ∧ c ≠ ']' ∧ c ≠ '}' ∧
    c ≠ ',' ∧ c ≠ '-' ∧ c ≠ ':' ∧ isWsCh c = false := by
  simp only [Char.isDigit, Bool.and_eq_true, decide_eq_true_eq] at h
  refine ⟨?_, ?_, ?_, ?_, ?_, ?_, ?_, ?_, ?_, ?_, ?_, ?_⟩ <;> first
    | (rintro rfl; revert h; decide)
    | (simp only [isWsCh, Bool.or_eq_false_iff, beq_eq_false_iff_ne, ne_eq]
       refine ⟨⟨⟨?_, ?_⟩, ?_⟩, ?_⟩ <;> (rintro rfl; revert h; decide))

theorem skipWs_cons {c : Char} (cs : List Char) (h : isWsCh c = false) :
    skipWs (c :: cs) = c :: cs := by
  simp [skipWs, h]

theorem skipWs_space (cs : List Char) : skipWs (' ' :: cs) = skipWs cs := by
  simp [skipWs, isWsCh]

theorem hexVal_hexDigitCh {d : Nat} (h : d < 16) : hexVal (hexDigitCh d) = some d := by
  interval_cases d <;> decide

/-- `String.mk` undoes taking the character data. -/
theorem strMk_data (s : String) : String.mk s.data = s := rfl

/-- One unfolding step of `parseStringChars` on a non-quote, non-backslash
head character. -/
theorem parseStringChars_cons_raw (c : Char) (rest : List Char) (h1 : c ≠ '"')
    (h2 : c ≠ '\\') :
    parseStringChars (c :: rest) = (parseStringChars rest).map (fun p => (c :: p.1, p.2)) := by
  show (if c = '"' then some ([], rest)
        else if c = '\\' then parseEsc rest
        else (parseStringChars rest).map (fun p => (c :: p.1, p.2))) = _
  rw [if_neg h1, if_neg h2]

/-- Parsing a string body inverts character escaping. -/
theorem parseStringChars_enc (l rest : List Char) :
    parseStringChars (encChars l ++ '"' :: rest) = some (l, rest) := by
  induction l with
  | nil =>
    show parseStringChars ('"' :: rest) = some ([], rest)
    show (if ('"' : Char) = '"' then some (([] : List Char), rest)
          else if ('"' : Char) = '\\' then parseEsc rest
          else (parseStringChars rest).map (fun p => ('"' :: p.1, p.2))) = _
    rw [if_pos rfl]
  | cons c cs ih =>
    show parseStringChars ((encodeChar c ++ encChars cs) ++ '"' :: rest) = some (c :: cs, rest)
    rw [List.append_assoc]
    unfold encodeChar
    by_cases h1 : c = '"'
    · subst h1
      rw [if_pos rfl]
      have step : parseStringChars ('\\' :: '"' :: (encChars cs ++ '"' :: rest)) =
          (parseStringChars (encChars cs ++ '"' :: rest)).map
            (fun p => ('"' :: p.1, p.2)) := rfl
      simp only [List.cons_append, List.nil_append, step, ih, Option.map_some']
    · by_cases h2 : c = '\\'
      · subst h2
        rw [if_neg h1, if_pos rfl]
        have step : parseStringChars ('\\' :: '\\' :: (encChars cs ++ '"' :: rest)) =
            (parseStringChars (encChars cs ++ '"' :: rest)).map
              (fun p => ('\\' :: p.1, p.2)) := rfl
        simp only [List.cons_append, List.nil_append, step, ih, Option.map_some']
      · by_cases h3 : c.toNat < 32
        · rw [if_neg h1, if_neg h2, if_pos h3]
          simp only [List.cons_append, List.nil_append]
          have hd : c.toNat / 16 < 16 := by omega
          have hm : c.toNat % 16 < 16 := by omega
          have step : parseStringChars ('\\' :: 'u' :: '0' :: '0' ::
                hexDigitCh (c.toNat / 16) :: hexDigitCh (c.toNat % 16) ::
                (encChars cs ++ '"' :: rest)) =
              match hexVal '0', hexVal '0', hexVal (hexDigitCh (c.toNat / 16)),
                  hexVal (hexDigitCh (c.toNat % 16)) with
              | some a, some b, some cc, some dd =>
                (parseStringChars (encChars cs ++ '"' :: rest)).map
                  (fun p => (Char.ofNat (((a * 16 + b) * 16 + cc) * 16 + dd) :: p.1, p.2))
              | _, _, _, _ => none := rfl
          have h00 : hexVal '0' = some 0 := rfl
          rw [step, h00, hexVal_hexDigitCh hd, hexVal_hexDigitCh hm]
          simp only [ih, Option.map_some']
          have hval : ((0 * 16 + 0) * 16 + c.toNat / 16) * 16 + c.toNat % 16 = c.toNat := by
            omega
          rw [hval, Char.ofNat_toNat]
        · rw [if_neg h1, if_neg h2, if_neg h3]
          simp only [List.cons_append, List.nil_append]
          rw [parseStringChars_cons_raw c _ h1 h2, ih, Option.map_some']

mutual
/-- Node count of a document; drives the parser fuel bound. -/
def Json.sizeJ : Json → Nat
  | .null => 1
  | .bool _ => 1
  | .num _ => 1
  | .str _ => 1
  | .arr l => 1 + JsonArr.sizeA l
  | .obj l => 1 + JsonObj.sizeO l

/-- Total node count of array elements. -/
def JsonArr.sizeA : JsonArr → Nat
  | .nil => 0
  | .cons v tl => 1 + Json.sizeJ v + JsonArr.sizeA tl

/-- Total node count of object fields. -/
def JsonObj.sizeO : JsonObj → Nat
  | .nil => 0
  | .cons _ v tl => 1 + Json.sizeJ v + JsonObj.sizeO tl
end

theorem sizeJ_pos (v : Json) : 1 ≤ Json.sizeJ v := by
  cases v <;> simp [Json.sizeJ]

theorem sizeA_pos (l : JsonArr) (h : l ≠ JsonArr.nil) : 1 ≤ JsonArr.sizeA l := by
  cases l with
  | nil => exact absurd rfl h
  | cons v tl => simp [JsonArr.sizeA]; omega

theorem sizeO_pos (l : JsonObj) (h : l ≠ JsonObj.nil) : 1 ≤ JsonObj.sizeO l := by
  cases l with
  | nil => exact absurd rfl h
  | cons k v tl => simp [JsonObj.sizeO]; omega

/-- `true` when the list does not start with a decimal digit. -/
def headNotDigit : List Char → Bool
  | [] => true
  | c :: _ => !c.isDigit

theorem spanDigits_append (ds rest : List Char) (hds : ∀ c ∈ ds, c.isDigit = true)
    (hrest : headNotDigit rest = true) : spanDigits (ds ++ rest) = (ds, rest) := by
  induction ds with
  | nil =>
    cases rest with
    | nil => rfl
    | cons c t =>
      simp only [headNotDigit, Bool.not_eq_true'] at hrest
      simp [spanDigits, hrest]
  | cons c t ih =>
    have hc := hds c (List.mem_cons_self c t)
    have ht : ∀ x ∈ t, x.isDigit = true := fun x hx => hds x (List.mem_cons_of_mem c hx)
    simp [spanDigits, hc, ih ht]

theorem foldl_digits_map (ds : List Nat) (h : ∀ d ∈ ds, d < 10) (a : Nat) :
    (ds.map digitCh).foldl (fun x c => 10 * x + chDigitVal c) a =
      ds.foldl (fun x d => 10 * x + d) a := by
  induction ds generalizing a with
  | nil => rfl
  | cons d t ih =>
    have hd := h d (List.mem_cons_self d t)
    have ht : ∀ x ∈ t, x < 10 := fun x hx => h x (List.mem_cons_of_mem d hx)
    simp [chDigitVal_digitCh hd, ih ht]

theorem digitsVal_natChars (n : Nat) : digitsVal (natChars n) = n := by
  unfold digitsVal natChars
  rw [foldl_digits_map _ (natDigits_lt n)]
  exact ofDigits_natDigits n

theorem parseNatChars_natChars (n : Nat) (rest : List Char)
    (h : headNotDigit rest = true) : parseNatChars (natChars n ++ rest) = some (n, rest) := by
  unfold parseNatChars
  rw [spanDigits_append _ _ (natChars_digits n) h]
  have hne : (natChars n).isEmpty = false := by
    cases hnc : natChars n with
    | nil => exact absurd hnc (natChars_ne_nil n)
    | cons c t => rfl
  simp [hne, digitsVal_natChars]

theorem parseIntChars_intChars (n : Int) (rest : List Char)
    (h : headNotDigit rest = true) : parseIntChars (intChars n ++ rest) = some (n, rest) := by
  by_cases hn : n < 0
  · unfold intChars
    rw [if_pos hn]
    simp only [List.cons_append]
    simp only [parseIntChars, reduceIte, parseNatChars_natChars _ _ h, Option.map_some']
    have : -(n.natAbs : Int) = n := by omega
    rw [this]
  · unfold intChars
    rw [if_neg hn]
    cases hnc : natChars n.toNat with
    | nil => exact absurd hnc (natChars_ne_nil n.toNat)
    | cons c t =>
      have hc : c.isDigit = true := natChars_digits n.toNat c (by rw [hnc]; exact List.mem_cons_self c t)
      have hcm := digit_facts hc
      simp only [List.cons_append]
      simp only [parseIntChars, if_neg hcm.2.2.2.2.2.2.2.2.2.1]
      rw [← List.cons_append, ← hnc, parseNatChars_natChars _ _ h]
      have : ((n.toNat : Int)) = n := by omega
      simp [this]

theorem parseJson_succ (fuel : Nat) (cs : List Char) :
    parseJson (fuel + 1) cs = parseValStep (parseElems fuel) (parseFields fuel) (skipWs cs) :=
  rfl

theorem parseElems_succ (fuel : Nat) (cs : List Char) :
    parseElems (fuel + 1) cs = parseElemsStep (parseJson fuel) (parseElems fuel) cs := rfl

theorem parseFields_succ (fuel : Nat) (cs : List Char) :
    parseFields (fuel + 1) cs = parseFieldsStep (parseJson fuel) (parseFields fuel) cs := rfl

/-- One unfolding step of the value dispatcher on a nonempty input. -/
theorem parseValStep_cons (pe : List Char → Option (JsonArr × List Char))
    (pf : List Char → Option (JsonObj × List Char)) (c : Char) (X : List Char) :
    parseValStep pe pf (c :: X) =
      (if c.isDigit || c == '-' then
        (parseIntChars (c :: X)).map (fun p => (Json.num p.1, p.2))
      else if c = 'n' then
        match X with
        | 'u' :: 'l' :: 'l' :: r => some (.null, r)
        | _ => none
      else if c = 't' then
        match X with
        | 'r' :: 'u' :: 'e' :: r => some (.bool true, r)
        | _ => none
      else if c = 'f' then
        match X with
        | 'a' :: 'l' :: 's' :: 'e' :: r => some (.bool false, r)
        | _ => none
      else if c = '"' then
        (parseStringChars X).map (fun p => (.str (String.mk p.1), p.2))
      else if c = '[' then
        (if (skipWs X).head? = some ']' then some (.arr .nil, (skipWs X).tail)
         else (pe (skipWs X)).map (fun p => (.arr p.1, p.2)))
      else if c = '{' then
        (if (skipWs X).head? = some '}' then some (.obj .nil, (skipWs X).tail)
         else (pf (skipWs X)).map (fun p => (.obj p.1, p.2)))
      else none) := rfl

/-- The first character of an encoded document is never whitespace and never
a closing bracket. -/
theorem encodeCh_head (v : Json) :
    ∃ c cs, Json.encodeCh v = c :: cs ∧ isWsCh c = false ∧ c ≠ ']' ∧ c ≠ '}' := by
  cases v with
  | null => exact ⟨'n', _, rfl, by decide, by decide, by decide⟩
  | bool b =>
    cases b with
    | false => exact ⟨'f', _, rfl, by decide, by decide, by decide⟩
    | true => exact ⟨'t', _, rfl, by decide, by decide, by decide⟩
  | num n =>
    have hed : Json.encodeCh (.num n) = intChars n := rfl
    rw [hed]
    by_cases hn : n < 0
    · refine ⟨'-', natChars n.natAbs, ?_, by decide, by decide, by decide⟩
      unfold intChars
      rw [if_pos hn]
    · cases hnc : natChars n.toNat with
      | nil => exact absurd hnc (natChars_ne_nil _)
      | cons c t =>
        have hc : c.isDigit = true :=
          natChars_digits _ c (by rw [hnc]; exact List.mem_cons_self c t)
        have hf := digit_facts hc
        refine ⟨c, t, ?_, hf.2.2.2.2.2.2.2.2.2.2.2, hf.2.2.2.2.2.2.1, hf.2.2.2.2.2.2.2.1⟩
        unfold intChars
        rw [if_neg hn]
        exact hnc
  | str s => exact ⟨'"', _, rfl, by decide, by decide, by decide⟩
  | arr l => exact ⟨'[', _, rfl, by decide, by decide, by decide⟩
  | obj l => exact ⟨'{', _, rfl, by decide, by decide, by decide⟩

/-- Leading whitespace removal is the identity on encoded documents. -/
theorem skipWs_encodeCh (v : Json) (rest : List Char) :
    skipWs (Json.encodeCh v ++ rest) = Json.encodeCh v ++ rest := by
  obtain ⟨c, cs, hv, hws, -, -⟩ := encodeCh_head v
  rw [hv, List.cons_append, skipWs_cons _ hws]

theorem headNotDigit_encTailA (tl : JsonArr) (rest : List Char) :
    headNotDigit (JsonArr.encTail tl ++ ']' :: rest) = true := by
  cases tl <;> rfl

theorem headNotDigit_encTailO (tl : JsonObj) (rest : List Char) :
    headNotDigit (JsonObj.encTail tl ++ '}' :: rest) = true := by
  cases tl <;> rfl

/-- The parser is a left inverse of the encoder, given enough fuel: for
documents, for nonempty array tails, and for nonempty object tails. -/
theorem parse_encode (fuel : Nat) :
    (∀ v rest, Json.sizeJ v ≤ fuel → headNotDigit rest = true →
      parseJson fuel (Json.encodeCh v ++ rest) = some (v, rest)) ∧
    (∀ l rest, JsonArr.sizeA l ≤ fuel → l ≠ JsonArr.nil →
      parseElems fuel (JsonArr.encElems l ++ ']' :: rest) = some (l, rest)) ∧
    (∀ l rest, JsonObj.sizeO l ≤ fuel → l ≠ JsonObj.nil →
      parseFields fuel (JsonObj.encFlds l ++ '}' :: rest) = some (l, rest)) := by
  induction fuel with
  | zero =>
    refine ⟨fun v rest hs _ => ?_, fun l rest hs hne => ?_, fun l rest hs hne => ?_⟩
    · exact absurd hs (by have := sizeJ_pos v; omega)
    · exact absurd hs (by have := sizeA_pos l hne; omega)
    · exact absurd hs (by have := sizeO_pos l hne; omega)
  | succ fuel ih =>
    obtain ⟨ihJ, ihE, ihF⟩ := ih
    refine ⟨?_, ?_, ?_⟩
    · intro v rest hs hrest
      rw [parseJson_succ, skipWs_encodeCh]
      cases v with
      | null => rfl
      | bool b => cases b <;> rfl
      | num n =>
        have hed : Json.encodeCh (.num n) = intChars n := rfl
        rw [hed]
        by_cases hn : n < 0
        · have h1 : intChars n = '-' :: natChars n.natAbs := by
            unfold intChars
            rw [if_pos hn]
          rw [h1, List.cons_append, parseValStep_cons, if_pos (by decide)]
          rw [← List.cons_append, ← h1, parseIntChars_intChars n rest hrest,
            Option.map_some']
        · cases hnc : natChars n.toNat with
          | nil => exact absurd hnc (natChars_ne_nil _)
          | cons c t =>
            have hc : c.isDigit = true :=
              natChars_digits _ c (by rw [hnc]; exact List.mem_cons_self c t)
            have h1 : intChars n = c :: t := by
              unfold intChars
              rw [if_neg hn]
              exact hnc
            rw [h1, List.cons_append, parseValStep_cons, if_pos (by simp [hc])]
            rw [← List.cons_append, ← h1, parseIntChars_intChars n rest hrest,
              Option.map_some']
      | str s =>
        have hed : Json.encodeCh (.str s) = '"' :: (encChars s.data ++ ['"']) := rfl
        rw [hed, List.cons_append, List.append_assoc, List.singleton_append,
          parseValStep_cons]
        rw [if_neg (by decide), if_neg (by decide), if_neg (by decide), if_neg (by decide),
          if_pos rfl]
        rw [parseStringChars_enc s.data rest, Option.map_some', strMk_data]
      | arr l =>
        cases l with
        | nil => rfl
        | cons v tl =>
          have hed : Json.encodeCh (.arr (.cons v tl)) =
              '[' :: ((Json.encodeCh v ++ JsonArr.encTail tl) ++ [']']) := rfl
          rw [hed, List.cons_append, parseValStep_cons]
          rw [if_neg (by decide), if_neg (by decide), if_neg (by decide),
            if_neg (by decide), if_neg (by decide), if_pos rfl]
          rw [List.append_assoc, List.append_assoc, List.singleton_append,
            skipWs_encodeCh]
          obtain ⟨c, cs, hv, hws, hrb, hcb⟩ := encodeCh_head v
          rw [hv, List.cons_append, List.head?_cons]
          have hne : ¬(some c = some (']' : Char)) := by simpa using hrb
          rw [if_neg hne, ← List.cons_append, ← hv, ← List.append_assoc]
          have h1 : JsonArr.encElems (.cons v tl) =
              Json.encodeCh v ++ JsonArr.encTail tl := rfl
          rw [← h1]
          have hsz : JsonArr.sizeA (.cons v tl) ≤ fuel := by
            have h2 : Json.sizeJ (.arr (.cons v tl)) = 1 + JsonArr.sizeA (.cons v tl) := rfl
            omega
          rw [ihE (.cons v tl) rest hsz (by simp), Option.map_some']
      | obj l =>
        cases l with
        | nil => rfl
        | cons k v tl =>
          have hed : Json.encodeCh (.obj (.cons k v tl)) =
              '{' :: ((encodeStringCh k ++ ':' :: ' ' ::
                (Json.encodeCh v ++ JsonObj.encTail tl)) ++ ['}']) := rfl
          rw [hed, List.cons_append, parseValStep_cons]
          rw [if_neg (by decide), if_neg (by decide), if_neg (by decide),
            if_neg (by decide), if_neg (by decide), if_neg (by decide), if_pos rfl]
          rw [List.append_assoc, List.singleton_append]
          have hq : (encodeStringCh k ++ ':' :: ' ' ::
                (Json.encodeCh v ++ JsonObj.encTail tl)) ++ '}' :: rest =
              '"' :: (encChars k.data ++ ('"' :: ':' :: ' ' ::
                ((Json.encodeCh v ++ JsonObj.encTail tl) ++ '}' :: rest))) := by
            unfold encodeStringCh
            simp [List.append_assoc]
          rw [hq, skipWs_cons _ (by decide), List.head?_cons]
          have hne : ¬(some ('"' : Char) = some ('}' : Char)) := by simp
          rw [if_neg hne, ← hq]
          have harg : JsonObj.encFlds (.cons k v tl) ++ '}' :: rest =
              (encodeStringCh k ++ ':' :: ' ' ::
                (Json.encodeCh v ++ JsonObj.encTail tl)) ++ '}' :: rest := rfl
          rw [← harg]
          have hsz : JsonObj.sizeO (.cons k v tl) ≤ fuel := by
            have h2 : Json.sizeJ (.obj (.cons k v tl)) = 1 + JsonObj.sizeO (.cons k v tl) := rfl
            omega
          rw [ihF (.cons k v tl) rest hsz (by simp), Option.map_some']
    · intro l rest hs hne
      cases l with
      | nil => exact absurd rfl hne
      | cons v tl =>
        rw [parseElems_succ]
        have h1 : JsonArr.encElems (.cons v tl) ++ ']' :: rest =
            Json.encodeCh v ++ (JsonArr.encTail tl ++ ']' :: rest) := by
          have h2 : JsonArr.encElems (.cons v tl) =
              Json.encodeCh v ++ JsonArr.encTail tl := rfl
          rw [h2, List.append_assoc]
        rw [h1]
        show (match parseJson fuel (Json.encodeCh v ++ (JsonArr.encTail tl ++ ']' :: rest)) with
            | some p => elemsAfterVal (parseElems fuel) p.1 p.2
            | none => none) = some (.cons v tl, rest)
        have hsz : Json.sizeJ v ≤ fuel := by
          have h2 : JsonArr.sizeA (.cons v tl) = 1 + Json.sizeJ v + JsonArr.sizeA tl := rfl
          omega
        rw [ihJ v _ hsz (headNotDigit_encTailA tl rest)]
        show elemsAfterVal (parseElems fuel) v (JsonArr.encTail tl ++ ']' :: rest) =
          some (.cons v tl, rest)
        cases tl with
        | nil => rfl
        | cons v' tl' =>
          have h3 : JsonArr.encTail (.cons v' tl') ++ ']' :: rest =
              ',' :: ' ' :: (JsonArr.encElems (.cons v' tl') ++ ']' :: rest) := by
            have h4 : JsonArr.encTail (.cons v' tl') =
                ',' :: ' ' :: (Json.encodeCh v' ++ JsonArr.encTail tl') := rfl
            have h5 : JsonArr.encElems (.cons v' tl') =
                Json.encodeCh v' ++ JsonArr.encTail tl' := rfl
            rw [h4, h5]
            rfl
          rw [h3]
          show (match parseElems fuel
                (skipWs (JsonArr.encElems (.cons v' tl') ++ ']' :: rest)) with
            | some q => some (JsonArr.cons v q.1, q.2)
            | none => none) = some (.cons v (.cons v' tl'), rest)
          have h6 : skipWs (JsonArr.encElems (.cons v' tl') ++ ']' :: rest) =
              JsonArr.encElems (.cons v' tl') ++ ']' :: rest := by
            have h5 : JsonArr.encElems (.cons v' tl') =
                Json.encodeCh v' ++ JsonArr.encTail tl' := rfl
            rw [h5, List.append_assoc, skipWs_encodeCh]
          rw [h6]
          have hsz' : JsonArr.sizeA (.cons v' tl') ≤ fuel := by
            have h7 : JsonArr.sizeA (.cons v (.cons v' tl')) =
                1 + Json.sizeJ v + JsonArr.sizeA (.cons v' tl') := rfl
            omega
          rw [ihE (.cons v' tl') rest hsz' (by simp)]
    · intro l rest hs hne
      cases l with
      | nil => exact absurd rfl hne
      | cons k v tl =>
        rw [parseFields_succ]
        have h1 : JsonObj.encFlds (.cons k v tl) ++ '}' :: rest =
            '"' :: (encChars k.data ++ ('"' :: (':' :: ' ' ::
              (Json.encodeCh v ++ (JsonObj.encTail tl ++ '}' :: rest))))) := by
          have h2 : JsonObj.encFlds (.cons k v tl) =
              encodeStringCh k ++ ':' :: ' ' :: (Json.encodeCh v ++ JsonObj.encTail tl) := rfl
          rw [h2]
          unfold encodeStringCh
          simp [List.append_assoc]
        rw [h1]
        show (match parseStringChars (encChars k.data ++ ('"' :: (':' :: ' ' ::
              (Json.encodeCh v ++ (JsonObj.encTail tl ++ '}' :: rest))))) with
            | some p => fieldsAfterKey (parseJson fuel) (parseFields fuel) p.1 p.2
            | none => none) = some (.cons k v tl, rest)
        rw [parseStringChars_enc]
        show fieldsAfterKey (parseJson fuel) (parseFields fuel) k.data
            (':' :: ' ' :: (Json.encodeCh v ++ (JsonObj.encTail tl ++ '}' :: rest))) =
          some (.cons k v tl, rest)
        show (match parseJson fuel
              (skipWs (' ' :: (Json.encodeCh v ++ (JsonObj.encTail tl ++ '}' :: rest)))) with
            | some q => fieldsAfterVal (parseFields fuel) k.data q.1 q.2
            | none => none) = some (.cons k v tl, rest)
        rw [skipWs_space, skipWs_encodeCh]
        have hsz : Json.sizeJ v ≤ fuel := by
          have h2 : JsonObj.sizeO (.cons k v tl) = 1 + Json.sizeJ v + JsonObj.sizeO tl := rfl
          omega
        rw [ihJ v _ hsz (headNotDigit_encTailO tl rest)]
        show fieldsAfterVal (parseFields fuel) k.data v (JsonObj.encTail tl ++ '}' :: rest) =
          some (.cons k v tl, rest)
        cases tl with
        | nil =>
          show some (JsonObj.cons (String.mk k.data) v JsonObj.nil, rest) =
            some (.cons k v .nil, rest)
          rw [strMk_data]
        | cons k' v' tl' =>
          have h3 : JsonObj.encTail (.cons k' v' tl') ++ '}' :: rest =
              ',' :: ' ' :: (JsonObj.encFlds (.cons k' v' tl') ++ '}' :: rest) := by
            have h4 : JsonObj.encTail (.cons k' v' tl') = ',' :: ' ' ::
                (encodeStringCh k' ++ ':' :: ' ' ::
                  (Json.encodeCh v' ++ JsonObj.encTail tl')) := rfl
            have h5 : JsonObj.encFlds (.cons k' v' tl') = encodeStringCh k' ++
                ':' :: ' ' :: (Json.encodeCh v' ++ JsonObj.encTail tl') := rfl
            rw [h4, h5]
            rfl
          rw [h3]
          show (match parseFields fuel
                (skipWs (JsonObj.encFlds (.cons k' v' tl') ++ '}' :: rest)) with
            | some w => some (JsonObj.cons (String.mk k.data) v w.1, w.2)
            | none => none) = some (.cons k v (.cons k' v' tl'), rest)
          have h6 : skipWs (JsonObj.encFlds (.cons k' v' tl') ++ '}' :: rest) =
              JsonObj.encFlds (.cons k' v' tl') ++ '}' :: rest := by
            obtain ⟨S, hS⟩ : ∃ S, JsonObj.encFlds (.cons k' v' tl') ++ '}' :: rest =
                '"' :: S := ⟨_, rfl⟩
            rw [hS, skipWs_cons _ (by decide)]
          rw [h6]
          have hsz' : JsonObj.sizeO (.cons k' v' tl') ≤ fuel := by
            have h7 : JsonObj.sizeO (.cons k v (.cons k' v' tl')) =
                1 + Json.sizeJ v + JsonObj.sizeO (.cons k' v' tl') := rfl
            omega
          rw [ihF (.cons k' v' tl') rest hsz' (by simp), strMk_data]

/-- Model of `json.loads` over character lists. -/
def loadsCh (cs : List Char) : Option Json :=
  match parseJson (cs.length + 1) cs with
  | some (v, rest) => if (skipWs rest).isEmpty then some v else none
  | none => none

/-- Model of `json.loads`. -/
def loads (s : String) : Option Json := loadsCh s.data

mutual
/-- A document never has more nodes than encoded characters. -/
theorem sizeJ_le_len : ∀ v : Json, Json.sizeJ v ≤ (Json.encodeCh v).length
  | .null => by decide
  | .bool b => by cases b <;> decide
  | .num n => by
    have h1 : Json.sizeJ (.num n) = 1 := rfl
    have h2 : Json.encodeCh (.num n) = intChars n := rfl
    rw [h1, h2]
    cases hnc : intChars n with
    | nil =>
      exfalso
      revert hnc
      unfold intChars
      by_cases hn : n < 0
      · rw [if_pos hn]
        simp
      · rw [if_neg hn]
        exact natChars_ne_nil _
    | cons c t => simp
  | .str s => by
    have h1 : Json.sizeJ (.str s) = 1 := rfl
    have h2 : Json.encodeCh (.str s) = '"' :: (encChars s.data ++ ['"']) := rfl
    rw [h1, h2]
    simp
  | .arr l => by
    have h1 : Json.sizeJ (.arr l) = 1 + JsonArr.sizeA l := rfl
    have h2 : Json.encodeCh (.arr l) = '[' :: (JsonArr.encElems l ++ [']']) := rfl
    rw [h1, h2]
    simp only [List.length_cons, List.length_append, List.length_singleton]
    cases l with
    | nil =>
      have h3 : JsonArr.sizeA JsonArr.nil = 0 := rfl
      omega
    | cons v tl =>
      have h3 : JsonArr.sizeA (.cons v tl) = 1 + Json.sizeJ v + JsonArr.sizeA tl := rfl
      have h4 : JsonArr.encElems (.cons v tl) = Json.encodeCh v ++ JsonArr.encTail tl := rfl
      have h5 := sizeJ_le_len v
      have h6 := sizeA_le_lenT tl
      rw [h3, h4]
      simp only [List.length_append]
      omega
  | .obj l => by
    have h1 : Json.sizeJ (.obj l) = 1 + JsonObj.sizeO l := rfl
    have h2 : Json.encodeCh (.obj l) = '{' :: (JsonObj.encFlds l ++ ['}']) := rfl
    rw [h1, h2]
    simp only [List.length_cons, List.length_append, List.length_singleton]
    cases l with
    | nil =>
      have h3 : JsonObj.sizeO JsonObj.nil = 0 := rfl
      omega
    | cons k v tl =>
      have h3 : JsonObj.sizeO (.cons k v tl) = 1 + Json.sizeJ v + JsonObj.sizeO tl := rfl
      have h4 : JsonObj.encFlds (.cons k v tl) =
          encodeStringCh k ++ ':' :: ' ' :: (Json.encodeCh v ++ JsonObj.encTail tl) := rfl
      have h5 := sizeJ_le_len v
      have h6 := sizeO_le_lenT tl
      rw [h3, h4]
      simp only [List.length_append, List.length_cons]
      omega

/-- Array tails never have more nodes than encoded characters. -/
theorem sizeA_le_lenT : ∀ l : JsonArr, JsonArr.sizeA l ≤ (JsonArr.encTail l).length
  | .nil => by decide
  | .cons v tl => by
    have h1 : JsonArr.sizeA (.cons v tl) = 1 + Json.sizeJ v + JsonArr.sizeA tl := rfl
    have h2 : JsonArr.encTail (.cons v tl) =
        ',' :: ' ' :: (Json.encodeCh v ++ JsonArr.encTail tl) := rfl
    have h3 := sizeJ_le_len v
    have h4 := sizeA_le_lenT tl
    rw [h1, h2]
    simp only [List.length_cons, List.length_append]
    omega

/-- Object tails never have more nodes than encoded characters. -/
theorem sizeO_le_lenT : ∀ l : JsonObj, JsonObj.sizeO l ≤ (JsonObj.encTail l).length
  | .nil => by decide
  | .cons k v tl => by
    have h1 : JsonObj.sizeO (.cons k v tl) = 1 + Json.sizeJ v + JsonObj.sizeO tl := rfl
    have h2 : JsonObj.encTail (.cons k v tl) = ',' :: ' ' ::
        (encodeStringCh k ++ ':' :: ' ' :: (Json.encodeCh v ++ JsonObj.encTail tl)) := rfl
    have h3 := sizeJ_le_len v
    have h4 := sizeO_le_lenT tl
    rw [h1, h2]
    simp only [List.length_cons, List.length_append]
    omega
end

/-- Serializing a document with `json.dumps` and parsing it back with
`json.loads` returns the same document. -/
theorem loads_dumps (v : Json) : loads (Json.dumps v) = some v := by
  unfold loads Json.dumps loadsCh
  have hdata : (String.mk (Json.encodeCh v)).data = Json.encodeCh v := rfl
  rw [hdata]
  have hsz : Json.sizeJ v ≤ (Json.encodeCh v).length + 1 :=
    le_trans (sizeJ_le_len v) (by omega)
  have h := (parse_encode ((Json.encodeCh v).length + 1)).1 v [] hsz rfl
  rw [List.append_nil] at h
  rw [h]
  rfl

/-! ## Datetime model

Model of the `datetime.datetime` values embedded in structured credential
payloads, restricted to second precision and no timezone: `isoformat`
renders `YYYY-MM-DDTHH:MM:SS` and `fromisoformat` parses exactly that
shape, validating field ranges the way the Python constructor does. -/

structure DateTime where
  year : Nat
  month : Nat
  day : Nat
  hour : Nat
  minute : Nat
  second : Nat

deriving instance DecidableEq for DateTime

/-- The range checks `datetime.datetime` enforces on its fields. -/
def DateTime.validB (t : DateTime) : Bool :=
  decide (0 < t.year) && decide (t.year < 10000) && decide (0 < t.month) &&
    decide (t.month ≤ 12) && decide (0 < t.day) && decide (t.day ≤ 31) &&
    decide (t.hour < 24) && decide (t.minute < 60) && decide (t.second < 60)

/-- Zero-padded decimal rendering of `n` to width `w`. -/
def padNat (w n : Nat) : List Char :=
  List.replicate (w - (natChars n).length) '0' ++ natChars n

/-- Characters of `datetime.isoformat()`. -/
def DateTime.isoformatCh (t : DateTime) : List Char :=
  padNat 4 t.year ++ '-' :: (padNat 2 t.month ++ '-' :: (padNat 2 t.day ++ 'T' ::
    (padNat 2 t.hour ++ ':' :: (padNat 2 t.minute ++ ':' :: padNat 2 t.second))))

/-- Model of `datetime.isoformat()`. -/
def DateTime.isoformat (t : DateTime) : String := String.mk t.isoformatCh

/-- Parse exactly `k` decimal digits, accumulating into `acc`. -/
def parseNDigits : Nat → Nat → List Char → Option (Nat × List Char)
  | 0, acc, cs => some (acc, cs)
  | k + 1, acc, c :: cs =>
    if c.isDigit then parseNDigits k (acc * 10 + chDigitVal c) cs else none
  | _ + 1, _, [] => none

/-- Consume one expected character. -/
def expectCh (c : Char) : List Char → Option (List Char)
  | d :: cs => if d = c then some cs else none
  | [] => none

/-- Model of `datetime.fromisoformat` over character lists (for the shape
`isoformat` produces). -/
def fromisoformatCh (cs : List Char) : Option DateTime :=
  (parseNDigits 4 0 cs).bind (fun p1 =>
  (expectCh '-' p1.2).bind (fun r1 =>
  (parseNDigits 2 0 r1).bind (fun p2 =>
  (expectCh '-' p2.2).bind (fun r2 =>
  (parseNDigits 2 0 r2).bind (fun p3 =>
  (expectCh 'T' p3.2).bind (fun r3 =>
  (parseNDigits 2 0 r3).bind (fun p4 =>
  (expectCh ':' p4.2).bind (fun r4 =>
  (parseNDigits 2 0 r4).bind (fun p5 =>
  (expectCh ':' p5.2).bind (fun r5 =>
  (parseNDigits 2 0 r5).bind (fun p6 =>
  match p6.2 with
  | [] =>
    if DateTime.validB ⟨p1.1, p2.1, p3.1, p4.1, p5.1, p6.1⟩ then
      some ⟨p1.1, p2.1, p3.1, p4.1, p5.1, p6.1⟩
    else none
  | _ => none)))))))))))

/-- Model of `datetime.fromisoformat`. -/
def fromisoformat (s : String) : Option DateTime := fromisoformatCh s.data

theorem optBind_some {α β : Type} (a : α) (f : α → Option β) :
    Option.bind (some a) f = f a := rfl

theorem expectCh_cons (c : Char) (r : List Char) : expectCh c (c :: r) = some r := by
  simp [expectCh]

theorem parseNDigits_exact (ds : List Char) (rest : List Char) (acc : Nat)
    (hds : ∀ c ∈ ds, c.isDigit = true) :
    parseNDigits ds.length acc (ds ++ rest) =
      some (ds.foldl (fun a c => 10 * a + chDigitVal c) acc, rest) := by
  induction ds generalizing acc with
  | nil => rfl
  | cons c t ih =>
    show (if c.isDigit then
        parseNDigits t.length (acc * 10 + chDigitVal c) (t ++ rest) else none) = _
    rw [if_pos (hds c (List.mem_cons_self c t))]
    rw [ih _ (fun x hx => hds x (List.mem_cons_of_mem c hx))]
    simp [Nat.mul_comm]

theorem foldl_zeros (z : Nat) (l : List Char) :
    (List.replicate z '0' ++ l).foldl (fun a c => 10 * a + chDigitVal c) 0 =
      l.foldl (fun a c => 10 * a + chDigitVal c) 0 := by
  induction z with
  | zero => rfl
  | succ z ih => simpa [List.replicate_succ, chDigitVal] using ih

theorem padNat_digits (w n : Nat) : ∀ c ∈ padNat w n, c.isDigit = true := by
  intro c hc
  simp only [padNat, List.mem_append, List.mem_replicate] at hc
  rcases hc with ⟨-, rfl⟩ | hc
  · decide
  · exact natChars_digits n c hc

theorem padNat_length (w n : Nat) (hw : 0 < w) (hn : n < 10 ^ w) :
    (padNat w n).length = w := by
  have hle : (natChars n).length ≤ w := by
    simpa [natChars] using natDigits_length_le n w hn hw
  simp [padNat, List.length_replicate]
  omega

theorem padNat_val (w n : Nat) :
    (padNat w n).foldl (fun a c => 10 * a + chDigitVal c) 0 = n := by
  rw [padNat, foldl_zeros]
  exact digitsVal_natChars n

theorem parseNDigits_pad (k n : Nat) (rest : List Char) (hk : 0 < k)
    (hn : n < 10 ^ k) : parseNDigits k 0 (padNat k n ++ rest) = some (n, rest) := by
  have h1 := parseNDigits_exact (padNat k n) rest 0 (padNat_digits k n)
  rw [padNat_length k n hk hn] at h1
  rw [h1, padNat_val]

theorem parseNDigits_pad_nil (k n : Nat) (hk : 0 < k) (hn : n < 10 ^ k) :
    parseNDigits k 0 (padNat k n) = some (n, []) := by
  have := parseNDigits_pad k n [] hk hn
  rwa [List.append_nil] at this

/-- Parsing the ISO rendering of a valid datetime returns it unchanged. -/
theorem fromisoformat_isoformat (t : DateTime) (h : t.validB = true) :
    fromisoformat t.isoformat = some t := by
  obtain ⟨y, mo, da, hh, mi, ss⟩ := t
  simp only [DateTime.validB, Bool.and_eq_true, decide_eq_true_eq] at h
  obtain ⟨⟨⟨⟨⟨⟨⟨⟨h1, h2⟩, h3⟩, h4⟩, h5⟩, h6⟩, h7⟩, h8⟩, h9⟩ := h
  show fromisoformatCh (DateTime.isoformatCh ⟨y, mo, da, hh, mi, ss⟩) = _
  rw [DateTime.isoformatCh]
  rw [fromisoformatCh]
  rw [parseNDigits_pad 4 y _ (by omega) (by norm_num; omega), optBind_some]
  rw [expectCh_cons, optBind_some]
  rw [parseNDigits_pad 2 mo _ (by omega) (by norm_num; omega), optBind_some]
  rw [expectCh_cons, optBind_some]
  rw [parseNDigits_pad 2 da _ (by omega) (by norm_num; omega), optBind_some]
  rw [expectCh_cons, optBind_some]
  rw [parseNDigits_pad 2 hh _ (by omega) (by norm_num; omega), optBind_some]
  rw [expectCh_cons, optBind_some]
  rw [parseNDigits_pad 2 mi _ (by omega) (by norm_num; omega), optBind_some]
  rw [expectCh_cons, optBind_some]
  rw [parseNDigits_pad_nil 2 ss (by omega) (by norm_num; omega), optBind_some]
  show (if DateTime.validB ⟨y, mo, da, hh, mi, ss⟩ then
      some (⟨y, mo, da, hh, mi, ss⟩ : DateTime) else none) = some ⟨y, mo, da, hh, mi, ss⟩
  rw [if_pos]
  simp only [DateTime.validB, Bool.and_eq_true, decide_eq_true_eq]
  omega

/-! ## Python values

Runtime values of credential payloads: JSON-serializable data possibly
containing `datetime` objects.  `PyVal.toJson` models the traversal of
`json.dumps(key_data, default=datetime_converter)` in `set_guild_api_key`,
which renders every embedded datetime with `isoformat`. -/

mutual
inductive PyVal where
  | null : PyVal
  | bool (b : Bool) : PyVal
  | num (n : Int) : PyVal
  | str (s : String) : PyVal
  | dt (t : DateTime) : PyVal
  | arr (elems : PyArr) : PyVal
  | obj (fields : PyFlds) : PyVal

inductive PyArr where
  | nil : PyArr
  | cons (hd : PyVal) (tl : PyArr) : PyArr

inductive PyFlds where
  | nil : PyFlds
  | cons (k : String) (v : PyVal) (tl : PyFlds) : PyFlds
end

deriving instance DecidableEq for PyVal
deriving instance DecidableEq for PyArr
deriving instance DecidableEq for PyFlds

mutual
/-- `json.dumps` with `default=datetime_converter`: datetimes become their
ISO strings, everything else serializes structurally. -/
def PyVal.toJson : PyVal → Json
  | .null => .null
  | .bool b => .bool b
  | .num n => .num n
  | .str s => .str s
  | .dt t => .str t.isoformat
  | .arr l => .arr (PyArr.toJson l)
  | .obj l => .obj (PyFlds.toJson l)

/-- Elementwise serialization of a Python list. -/
def PyArr.toJson : PyArr → JsonArr
  | .nil => .nil
  | .cons v tl => .cons (PyVal.toJson v) (PyArr.toJson tl)

/-- Fieldwise serialization of a Python dict. -/
def PyFlds.toJson : PyFlds → JsonObj
  | .nil => .nil
  | .cons k v tl => .cons k (PyVal.toJson v) (PyFlds.toJson tl)
end

mutual
/-- The inclusion of parsed JSON data into Python values (`json.loads`
returns plain data, never datetimes). -/
def Json.toPy : Json → PyVal
  | .null => .null
  | .bool b => .bool b
  | .num n => .num n
  | .str s => .str s
  | .arr l => .arr (JsonArr.toPy l)
  | .obj l => .obj (JsonObj.toPy l)

/-- Elementwise inclusion of a JSON array. -/
def JsonArr.toPy : JsonArr → PyArr
  | .nil => .nil
  | .cons v tl => .cons (Json.toPy v) (JsonArr.toPy tl)

/-- Fieldwise inclusion of a JSON object. -/
def JsonObj.toPy : JsonObj → PyFlds
  | .nil => .nil
  | .cons k v tl => .cons k (Json.toPy v) (JsonObj.toPy tl)
end

mutual
/-- `true` when a Python value contains no datetime anywhere. -/
def PyVal.noDt : PyVal → Bool
  | .null => true
  | .bool _ => true
  | .num _ => true
  | .str _ => true
  | .dt _ => false
  | .arr l => PyArr.noDt l
  | .obj l => PyFlds.noDt l

/-- `true` when no element contains a datetime. -/
def PyArr.noDt : PyArr → Bool
  | .nil => true
  | .cons v tl => PyVal.noDt v && PyArr.noDt tl

/-- `true` when no field value contains a datetime. -/
def PyFlds.noDt : PyFlds → Bool
  | .nil => true
  | .cons _ v tl => PyVal.noDt v && PyFlds.noDt tl
end

mutual
/-- Serializing a datetime-free value and re-including the parsed result is
the identity. -/
theorem toPy_toJson : ∀ v : PyVal, PyVal.noDt v = true → Json.toPy (PyVal.toJson v) = v
  | .null, _ => rfl
  | .bool _, _ => rfl
  | .num _, _ => rfl
  | .str _, _ => rfl
  | .arr l, h => by
    have h1 : PyArr.noDt l = true := h
    show PyVal.arr (JsonArr.toPy (PyArr.toJson l)) = PyVal.arr l
    rw [toPyA_toJson l h1]
  | .obj l, h => by
    have h1 : PyFlds.noDt l = true := h
    show PyVal.obj (JsonObj.toPy (PyFlds.toJson l)) = PyVal.obj l
    rw [toPyF_toJson l h1]

/-- Elementwise version of `toPy_toJson`. -/
theorem toPyA_toJson : ∀ l : PyArr, PyArr.noDt l = true → JsonArr.toPy (PyArr.toJson l) = l
  | .nil, _ => rfl
  | .cons v tl, h => by
    have h1 : (PyVal.noDt v && PyArr.noDt tl) = true := h
    rw [Bool.and_eq_true] at h1
    show PyArr.cons (Json.toPy (PyVal.toJson v)) (JsonArr.toPy (PyArr.toJson tl)) =
      PyArr.cons v tl
    rw [toPy_toJson v h1.1, toPyA_toJson tl h1.2]

/-- Fieldwise version of `toPy_toJson`. -/
theorem toPyF_toJson : ∀ l : PyFlds, PyFlds.noDt l = true → JsonObj.toPy (PyFlds.toJson l) = l
  | .nil, _ => rfl
  | .cons k v tl, h => by
    have h1 : (PyVal.noDt v && PyFlds.noDt tl) = true := h
    rw [Bool.and_eq_true] at h1
    show PyFlds.cons k (Json.toPy (PyVal.toJson v)) (JsonObj.toPy (PyFlds.toJson tl)) =
      PyFlds.cons k v tl
    rw [toPy_toJson v h1.1, toPyF_toJson tl h1.2]
end

/-! ## Encryption unit

Model of the process-wide Fernet instance built from `ENCRYPTION_KEY` when
the module loads (`encrypt_data` / `decrypt_data` in `operations.py`).  The key
is a natural number; a ciphertext records the key it was produced under by
prefixing it, and decryption succeeds exactly when that prefix matches —
an authenticated-encryption model in which decrypting under the wrong key
or a malformed ciphertext fails, as Fernet raises `InvalidToken`. -/

/-- Strip an expected prefix, failing when it does not match. -/
def stripPrefixCh : List Char → List Char → Option (List Char)
  | [], cs => some cs
  | p :: ps, c :: cs => if c = p then stripPrefixCh ps cs else none
  | _ :: _, [] => none

theorem stripPrefixCh_append (p r : List Char) : stripPrefixCh p (p ++ r) = some r := by
  induction p with
  | nil => rfl
  | cons c t ih => simp [stripPrefixCh, ih]

/-- Model of `encrypt_data`. -/
def encrypt_data (key : Nat) (s : String) : String :=
  String.mk (natChars key ++ ':' :: s.data)

/-- Model of `decrypt_data`; `none` is a raised `InvalidToken`. -/
def decrypt_data (key : Nat) (c : String) : Option String :=
  (stripPrefixCh (natChars key ++ [':']) c.data).map String.mk

theorem decrypt_encrypt (key : Nat) (s : String) :
    decrypt_data key (encrypt_data key s) = some s := by
  unfold decrypt_data encrypt_data
  have h : natChars key ++ ':' :: s.data = (natChars key ++ [':']) ++ s.data := by
    simp
  show (stripPrefixCh (natChars key ++ [':']) (natChars key ++ ':' :: s.data)).map
      String.mk = some s
  rw [h, stripPrefixCh_append, Option.map_some', strMk_data]

/-! ## Finite maps as association lists

Lookup takes the first matching entry, insertion replaces it in place, and
deletion removes every matching entry, so the operations implement map
semantics on arbitrary lists. -/

/-- First-match lookup. -/
def lookupKV {κ ν : Type} [DecidableEq κ] : List (κ × ν) → κ → Option ν
  | [], _ => none
  | (k, v) :: t, key => if key = k then some v else lookupKV t key

/-- Insert-or-replace keyed update. -/
def insertKV {κ ν : Type} [DecidableEq κ] : List (κ × ν) → κ → ν → List (κ × ν)
  | [], key, v => [(key, v)]
  | (k, w) :: t, key, v => if key = k then (key, v) :: t else (k, w) :: insertKV t key v

/-- Delete every entry under a key. -/
def deleteKV {κ ν : Type} [DecidableEq κ] (l : List (κ × ν)) (key : κ) : List (κ × ν) :=
  l.filter (fun p => decide (p.1 ≠ key))

theorem lookupKV_insert_self {κ ν : Type} [DecidableEq κ] (l : List (κ × ν))
    (key : κ) (v : ν) : lookupKV (insertKV l key v) key = some v := by
  induction l with
  | nil => simp [insertKV, lookupKV]
  | cons p t ih =>
    obtain ⟨k, w⟩ := p
    by_cases h : key = k
    · subst h
      simp [insertKV, lookupKV]
    · simp [insertKV, lookupKV, h, ih]

theorem lookupKV_insert_ne {κ ν : Type} [DecidableEq κ] (l : List (κ × ν))
    (key key' : κ) (v : ν) (h : key' ≠ key) :
    lookupKV (insertKV l key v) key' = lookupKV l key' := by
  induction l with
  | nil => simp [insertKV, lookupKV, h]
  | cons p t ih =>
    obtain ⟨k, w⟩ := p
    by_cases hk : key = k
    · subst hk
      simp [insertKV, lookupKV, h]
    · by_cases hk' : key' = k
      · subst hk'
        simp [insertKV, lookupKV, hk, if_neg hk]
      · simp [insertKV, lookupKV, hk, hk', ih]

theorem lookupKV_delete_self {κ ν : Type} [DecidableEq κ] (l : List (κ × ν))
    (key : κ) : lookupKV (deleteKV l key) key = none := by
  induction l with
  | nil => rfl
  | cons p t ih =>
    obtain ⟨k, w⟩ := p
    by_cases h : k = key
    · subst h
      simpa [deleteKV, List.filter] using ih
    · have h' : key ≠ k := fun hk => h hk.symm
      simpa [deleteKV, List.filter, h, lookupKV, h'] using ih

/-! ## The persistent store, the cache and the operation state

The Persistent Store Adapter (`database/connection.py`) and the Cache
Layer (`database/cache.py`) are not part of the source tree.

Modelled from the spec: the store (§4.2, §6) is a relational backend
accessed through point lookups and upserts keyed by composite keys; it is
modelled as one association list per table touched by the claims.
Modelled from the spec: the cache (§4.1, §6) is a key-value map over
namespaced string keys `guild_config:{gid}:{key}`, `guild_setting:…`,
`botdetect_config:…`, `guild_api_key:{gid}`; since the four prefixes make
the namespaces disjoint, the cache is modelled as four disjoint maps, and
per §4.1 a cache call never raises into its caller. -/

/-- Row data of the relational tables used by the claims; `guild_config`,
`guild_settings` and `botdetect_config` store the JSON text of the value
column, `log_event_toggles` stores a boolean. -/
structure ApiRow where
  guild_id : Int
  api_provider : String
  encrypted_api_key : Option String
  encrypted_github_auth_info : Option String
  created_at : Option DateTime
  updated_at : Option DateTime

deriving instance DecidableEq for ApiRow

/-- The decrypted credential record returned by `get_guild_api_key`
(the `GuildAPIKey` model object). -/
structure GuildAPIKey where
  guild_id : Int
  api_provider : String
  api_key : Option String
  github_auth_info : Option PyVal
  created_at : Option DateTime
  updated_at : Option DateTime

deriving instance DecidableEq for GuildAPIKey

/-- Modelled from the spec: the tables of the Persistent Store used by the
claims (§4.2). -/
structure Store where
  guild_config : List ((Int × String) × String)
  guild_settings : List ((Int × String) × String)
  botdetect_config : List ((Int × String) × String)
  log_event_toggles : List ((Int × String) × Bool)
  guild_api_keys : List (Int × ApiRow)

deriving instance DecidableEq for Store

/-- Modelled from the spec: the Cache Layer (§4.1), split along the
namespacing prefixes of its string keys.  `guild_api_key` caches
`GuildAPIKey.__dict__`, modelled by the record itself. -/
structure Cache where
  guild_config : List ((Int × String) × Json)
  guild_setting : List ((Int × String) × Json)
  botdetect_config : List ((Int × String) × Json)
  guild_api_key : List (Int × GuildAPIKey)

deriving instance DecidableEq for Cache

/-- Combined state threaded through the operations. -/
structure St where
  store : Store
  cache : Cache

deriving instance DecidableEq for St

/-- Outcome of one `insert_or_update` call: report success, report failure,
or raise. -/
inductive UpsertRes where
  | ok : UpsertRes
  | fail : UpsertRes
  | exn : UpsertRes

deriving instance DecidableEq for UpsertRes

/-- Behaviour of the store collaborators during one operation:
whether `execute_query` raises, and what `insert_or_update` does. -/
structure Beh where
  queryExn : Bool
  upsert : UpsertRes

deriving instance DecidableEq for Beh

/-- The fault-free collaborator behaviour. -/
def behOk : Beh := ⟨false, UpsertRes.ok⟩

/-! ## Guild configuration operations (`operations.py`) -/

/-- Embedding of `get_guild_config`: check the cache under
`guild_config:{gid}:{key}` (a cached Python `None` fails the
`is not None` test); on miss query the store, parse the JSON text
(keeping the raw string if parsing fails), populate the cache and return;
on a raised query or a total miss return the caller's default with the
cache untouched. -/
def get_guild_config (beh : Beh) (st : St) (gid : Int) (key : String)
    (dflt : Json) : Json × St :=
  let fromStore : Json × St :=
    if beh.queryExn then (dflt, st)
    else
      match lookupKV st.store.guild_config (gid, key) with
      | some s =>
        let value := match loads s with
          | some j => j
          | none => Json.str s
        (value, ⟨st.store,
          { st.cache with
              guild_config := insertKV st.cache.guild_config (gid, key) value }⟩)
      | none => (dflt, st)
  match lookupKV st.cache.guild_config (gid, key) with
  | some v => if v = Json.null then fromStore else (v, st)
  | none => fromStore

/-- Embedding of `set_guild_config`: serialize with `json.dumps`, upsert
into `guild_config` on conflict key `(guild_id, key)`, and only on success
write the raw value through to the cache; a failed or raising upsert
returns `false` and leaves both the store and the cache unchanged. -/
def set_guild_config (beh : Beh) (st : St) (gid : Int) (key : String)
    (v : Json) : Bool × St :=
  match beh.upsert with
  | .ok =>
    (true,
      ⟨{ st.store with
          guild_config := insertKV st.store.guild_config (gid, key) (Json.dumps v) },
        { st.cache with
          guild_config := insertKV st.cache.guild_config (gid, key) v }⟩)
  | .fail => (false, st)
  | .exn => (false, st)

/-- Embedding of `get_guild_setting` (same shape as `get_guild_config`
over the `guild_settings` table and the `guild_setting:` cache prefix). -/
def get_guild_setting (beh : Beh) (st : St) (gid : Int) (key : String)
    (dflt : Json) : Json × St :=
  let fromStore : Json × St :=
    if beh.queryExn then (dflt, st)
    else
      match lookupKV st.store.guild_settings (gid, key) with
      | some s =>
        let value := match loads s with
          | some j => j
          | none => Json.str s
        (value, ⟨st.store,
          { st.cache with
              guild_setting := insertKV st.cache.guild_setting (gid, key) value }⟩)
      | none => (dflt, st)
  match lookupKV st.cache.guild_setting (gid, key) with
  | some v => if v = Json.null then fromStore else (v, st)
  | none => fromStore

/-- Embedding of `set_guild_setting` (same shape as `set_guild_config`). -/
def set_guild_setting (beh : Beh) (st : St) (gid : Int) (key : String)
    (v : Json) : Bool × St :=
  match beh.upsert with
  | .ok =>
    (true,
      ⟨{ st.store with
          guild_settings := insertKV st.store.guild_settings (gid, key) (Json.dumps v) },
        { st.cache with
          guild_setting := insertKV st.cache.guild_setting (gid, key) v }⟩)
  | .fail => (false, st)
  | .exn => (false, st)

/-- Embedding of `set_botdetect_config` (same shape as
`set_guild_config` over the `botdetect_config` table). -/
def set_botdetect_config (beh : Beh) (st : St) (gid : Int) (key : String)
    (v : Json) : Bool × St :=
  match beh.upsert with
  | .ok =>
    (true,
      ⟨{ st.store with
          botdetect_config := insertKV st.store.botdetect_config (gid, key) (Json.dumps v) },
        { st.cache with
          botdetect_config := insertKV st.cache.botdetect_config (gid, key) v }⟩)
  | .fail => (false, st)
  | .exn => (false, st)

/-! ## Log event toggle operations (`operations.py`)

These two functions are instrumented with a trace of the collaborator
calls they make, so that the absence of any cache traffic is part of the
embedded behaviour and not an artifact of the model. -/

/-- One observable collaborator call. -/
inductive Call where
  | cacheGet (key : String) : Call
  | cacheSet (key : String) : Call
  | cacheDelete (key : String) : Call
  | storeQuery (table : String) : Call
  | storeUpsert (table : String) : Call

deriving instance DecidableEq for Call

/-- Embedding of `get_log_event_enabled`: a single store query (no cache
read, no cache write, no state change); a raised query or a missing row
yields the caller-supplied default. -/
def get_log_event_enabled (beh : Beh) (st : St) (gid : Int) (eventKey : String)
    (defaultEnabled : Bool) : Bool × List Call :=
  if beh.queryExn then (defaultEnabled, [Call.storeQuery "log_event_toggles"])
  else
    match lookupKV st.store.log_event_toggles (gid, eventKey) with
    | some b => (b, [Call.storeQuery "log_event_toggles"])
    | none => (defaultEnabled, [Call.storeQuery "log_event_toggles"])

/-- Embedding of `set_log_event_enabled`: a single upsert into
`log_event_toggles` on conflict key `(guild_id, event_key)`; the cache is
never consulted, written, or invalidated. -/
def set_log_event_enabled (beh : Beh) (st : St) (gid : Int) (eventKey : String)
    (enabled : Bool) : Bool × St × List Call :=
  match beh.upsert with
  | .ok =>
    (true,
      ⟨{ st.store with
          log_event_toggles := insertKV st.store.log_event_toggles (gid, eventKey) enabled },
        st.cache⟩,
      [Call.storeUpsert "log_event_toggles"])
  | .fail => (false, st, [Call.storeUpsert "log_event_toggles"])
  | .exn => (false, st, [Call.storeUpsert "log_event_toggles"])

/-! ## Guild API key operations (`operations.py`) -/

/-- First-match field lookup in a JSON object (Python dict access on the
result of `json.loads`). -/
def lookupObj : JsonObj → String → Option Json
  | .nil, _ => none
  | .cons k v t, key => if key = k then some v else lookupObj t key

/-- In-place replacement of the value under a key (Python dict item
assignment; insertion order is preserved). -/
def setObjField : PyFlds → String → PyVal → PyFlds
  | .nil, _, _ => .nil
  | .cons k v t, key, newV =>
    if key = k then .cons k newV t else .cons k v (setObjField t key newV)

/-- Membership of a string among the elements of a parsed JSON list
(Python `in` on a list). -/
def jsonArrHasStr : JsonArr → String → Bool
  | .nil, _ => false
  | .cons v t, s => (v == Json.str s) || jsonArrHasStr t s

/-- Prefix test over characters. -/
def isPrefixB : List Char → List Char → Bool
  | [], _ => true
  | _ :: _, [] => false
  | p :: ps, c :: cs => p == c && isPrefixB ps cs

/-- Substring test over characters (Python `in` on a string). -/
def containsCh : List Char → List Char → Bool
  | needle, [] => needle.isEmpty
  | needle, c :: t => isPrefixB needle (c :: t) || containsCh needle t

/-- The `expires_at` fix-up in `get_guild_api_key`: after
`github_auth_info = json.loads(decrypted_auth_str)`, the code runs
`if "expires_at" in github_auth_info:` and replaces that entry with
`datetime.fromisoformat(github_auth_info["expires_at"])`.  `none` models a
raised exception (a `TypeError` from `in` on a non-container or from
`fromisoformat` on a non-string, or a `ValueError` on an unparsable
string), which the caller's handler turns into an absent result.  Only the
`expires_at` key is ever converted back to a datetime. -/
def fixExpires (j : Json) : Option PyVal :=
  match j with
  | .obj flds =>
    match lookupObj flds "expires_at" with
    | some (.str s) =>
      match fromisoformat s with
      | some t => some (.obj (setObjField (JsonObj.toPy flds) "expires_at" (.dt t)))
      | none => none
    | some _ => none
    | none => some (.obj (JsonObj.toPy flds))
  | .arr l => if jsonArrHasStr l "expires_at" then none else some (Json.toPy (.arr l))
  | .str s =>
    if containsCh "expires_at".data s.data then none else some (.str s)
  | .null => none
  | .bool _ => none
  | .num _ => none

/-- Python truthiness of an optional string column (absent and empty are
both falsy). -/
def strTruthy : Option String → Bool
  | some s => decide (s ≠ "")
  | none => false

/-- The body of `get_guild_api_key`'s try-block once the row is fetched:
decrypt the populated secret fields and build the `GuildAPIKey`; `none`
models an exception (bad wrapper JSON, missing `"data"` key, a non-string
ciphertext, `InvalidToken` from Fernet, bad inner JSON, or a failing
`expires_at` conversion), caught by the handler. -/
def getApiKeyFromRow (encKey : Nat) (row : ApiRow) : Option GuildAPIKey :=
  (match row.encrypted_api_key with
   | some s =>
     if s = "" then some none
     else (decrypt_data encKey s).map some
   | none => some none).bind (fun apiKey =>
  (match row.encrypted_github_auth_info with
   | some s =>
     if s = "" then some none
     else
       (loads s).bind (fun wrapper =>
       (match wrapper with
        | .obj flds => lookupObj flds "data"
        | _ => none).bind (fun dataV =>
       (match dataV with
        | .str es => some es
        | _ => none).bind (fun es =>
       (decrypt_data encKey es).bind (fun dec =>
       (loads dec).bind (fun parsed =>
       (fixExpires parsed).map some)))))
   | none => some none).bind (fun gauth =>
  some ⟨row.guild_id, row.api_provider, apiKey, gauth, row.created_at, row.updated_at⟩))

/-- Embedding of `get_guild_api_key`: return the cached record when the
cache holds one (`GuildAPIKey(**cached)`); otherwise query the row, run
the decryption body, cache and return the record, with every failure
surfaced as `none` and the state left unchanged. -/
def get_guild_api_key (beh : Beh) (encKey : Nat) (st : St) (gid : Int) :
    Option GuildAPIKey × St :=
  match lookupKV st.cache.guild_api_key gid with
  | some k => (some k, st)
  | none =>
    if beh.queryExn then (none, st)
    else
      match lookupKV st.store.guild_api_keys gid with
      | none => (none, st)
      | some row =>
        match getApiKeyFromRow encKey row with
        | none => (none, st)
        | some gk =>
          (some gk, ⟨st.store,
            { st.cache with
                guild_api_key := insertKV st.cache.guild_api_key gid gk }⟩)

/-- The payload passed to `set_guild_api_key`: a plain string key, a
structured dict, or any other Python value. -/
inductive KeyData where
  | str (s : String) : KeyData
  | dict (d : PyFlds) : KeyData
  | other : KeyData

deriving instance DecidableEq for KeyData

/-- The upsert-then-invalidate tail of `set_guild_api_key`: on a
successful upsert (conflict key `guild_id` alone) the cache entry is
deleted; otherwise nothing changes.  The `created_at` / `updated_at`
columns are database-managed and modelled as absent. -/
def upsertApiRow (beh : Beh) (st : St) (row : ApiRow) : Bool × St :=
  match beh.upsert with
  | .ok =>
    (true,
      ⟨{ st.store with
          guild_api_keys := insertKV st.store.guild_api_keys row.guild_id row },
        { st.cache with
          guild_api_key := deleteKV st.cache.guild_api_key row.guild_id }⟩)
  | .fail => (false, st)
  | .exn => (false, st)

/-- Embedding of `set_guild_api_key`: a dict payload is serialized with the
datetime converter, encrypted, and wrapped as `{"data": ciphertext}` —
but only for provider `"github_copilot"`; a string payload is encrypted
directly for any provider; anything else logs an error and returns
`false` before any store or cache activity. -/
def set_guild_api_key (beh : Beh) (encKey : Nat) (st : St) (gid : Int)
    (provider : String) (kd : KeyData) : Bool × St :=
  match kd with
  | .dict d =>
    if provider = "github_copilot" then
      let encryptedString := encrypt_data encKey (Json.dumps (PyVal.toJson (.obj d)))
      let auth := Json.dumps (.obj (.cons "data" (.str encryptedString) .nil))
      upsertApiRow beh st ⟨gid, provider, none, some auth, none, none⟩
    else (false, st)
  | .str s =>
    upsertApiRow beh st ⟨gid, provider, some (encrypt_data encKey s), none, none, none⟩
  | .other => (false, st)

/-! ## Event relay (`cogs/logging_cog.py`)

The cog reads its delivery target and toggles through
`logging_helpers.settings_manager`, which is not part of the source tree.
Modelled from the spec: `get_logging_webhook` is the per-tenant
DeliveryTarget lookup (§3) and `is_log_event_enabled` is the event-toggle
read with a caller default (§4.4, absence implies the default). -/

/-- State the relay consults for one event. -/
structure RelayState where
  webhooks : List (Int × String)
  toggles : List ((Int × String) × Bool)
  sessionOpen : Bool

deriving instance DecidableEq for RelayState

/-- Modelled from the spec: `settings_manager.get_logging_webhook`. -/
def get_logging_webhook (rs : RelayState) (gid : Int) : Option String :=
  lookupKV rs.webhooks gid

/-- Modelled from the spec: `settings_manager.is_log_event_enabled` — the
stored toggle when present, the supplied default otherwise. -/
def is_log_event_enabled (rs : RelayState) (gid : Int) (eventKey : String)
    (defaultEnabled : Bool) : Bool :=
  match lookupKV rs.toggles (gid, eventKey) with
  | some b => b
  | none => defaultEnabled

/-- Embedding of `LoggingCog._check_log_enabled`: false when the webhook
URL is absent or falsy, otherwise the toggle with default `true`. -/
def check_log_enabled (rs : RelayState) (gid : Int) (eventKey : String) : Bool :=
  if strTruthy (get_logging_webhook rs gid) then
    is_log_event_enabled rs gid eventKey true
  else false

/-- Embedding of `LoggingCog._send_log_embed`, counting outbound
`webhook.send` calls: zero when the client session is missing or closed or
when the webhook URL is absent or falsy, otherwise exactly one (delivery
errors are caught inside the function after the call is made, so a failed
delivery still counts as one outbound call). -/
def send_log_embed (rs : RelayState) (gid : Int) : Nat :=
  if !rs.sessionOpen then 0
  else if strTruthy (get_logging_webhook rs gid) then 1
  else 0

/-- The listener skeleton shared by the event handlers (`on_member_join`,
`on_message_delete`, …): return early unless `_check_log_enabled` passes,
then build the view and call `_send_log_embed`; the result counts the
outbound transport calls the event produces. -/
def relay_event (rs : RelayState) (gid : Int) (eventKey : String) : Nat :=
  if check_log_enabled rs gid eventKey then send_log_embed rs gid else 0

/-! ## Notification field truncation (`logging_cog.py`)

Message content is modelled as its character sequence, matching Python
string indexing. -/

/-- The deleted-message content field of `on_message_delete`:
`if len(content) > 1000: content = content[:997] + "..."`. -/
def truncate_delete_content (content : List Char) : List Char :=
  if 1000 < content.length then content.take 997 ++ ['.', '.', '.'] else content

/-- The before/after content fields of `on_message_edit`:
`if len(content) > 500: content = content[:497] + "..."`. -/
def truncate_edit_content (content : List Char) : List Char :=
  if 500 < content.length then content.take 497 ++ ['.', '.', '.'] else content

/-! ## Supporting definitions and lemmas for the claims -/

/-- The state of a fresh deployment: empty store, empty cache. -/
def emptySt : St := ⟨⟨[], [], [], [], []⟩, ⟨[], [], [], []⟩⟩

/-- Forcible eviction of one `guild_config` cache entry (TTL expiry or
cache loss), leaving the persistent store untouched. -/
def evictConfigEntry (st : St) (gid : Int) (key : String) : St :=
  ⟨st.store,
    { st.cache with guild_config := deleteKV st.cache.guild_config (gid, key) }⟩

/-- First-match lookup in a Python dict. -/
def lookupPy : PyFlds → String → Option PyVal
  | .nil, _ => none
  | .cons k v t, key => if key = k then some v else lookupPy t key

/-- The keys of a Python dict, in order. -/
def keysPy : PyFlds → List String
  | .nil => []
  | .cons k _ t => k :: keysPy t

/-- `true` when every value except those under `ex` is datetime-free. -/
def othersNoDt : PyFlds → String → Bool
  | .nil, _ => true
  | .cons k v tl, ex => (if k = ex then true else PyVal.noDt v) && othersNoDt tl ex

theorem lookupObj_toJson : ∀ (d : PyFlds) (key : String),
    lookupObj (PyFlds.toJson d) key = (lookupPy d key).map PyVal.toJson
  | .nil, _ => rfl
  | .cons k v tl, key => by
    show lookupObj (JsonObj.cons k (PyVal.toJson v) (PyFlds.toJson tl)) key = _
    by_cases h : key = k
    · simp [lookupObj, lookupPy, h]
    · simp [lookupObj, lookupPy, h, lookupObj_toJson tl key]

theorem noDt_of_others : ∀ (tl : PyFlds) (ex : String),
    othersNoDt tl ex = true → ex ∉ keysPy tl → PyFlds.noDt tl = true
  | .nil, _, _, _ => rfl
  | .cons k v t, ex, hoth, hmem => by
    simp only [keysPy, List.mem_cons, not_or] at hmem
    simp only [othersNoDt, Bool.and_eq_true] at hoth
    obtain ⟨hoth1, hoth2⟩ := hoth
    have hk : k ≠ ex := fun h => hmem.1 h.symm
    rw [if_neg hk] at hoth1
    show (PyVal.noDt v && PyFlds.noDt t) = true
    rw [Bool.and_eq_true]
    exact ⟨hoth1, noDt_of_others t ex hoth2 hmem.2⟩

/-- Replacing the parsed-back `expires_at` field with its datetime undoes
the serialization of a dict whose only datetime sits under `expires_at`. -/
theorem setObjField_toPy_toJson : ∀ (d : PyFlds) (t : DateTime),
    (keysPy d).Nodup → lookupPy d "expires_at" = some (PyVal.dt t) →
    othersNoDt d "expires_at" = true →
    setObjField (JsonObj.toPy (PyFlds.toJson d)) "expires_at" (PyVal.dt t) = d
  | .nil, t, _, hv, _ => by simp [lookupPy] at hv
  | .cons k v tl, t, hnd, hv, hoth => by
    simp only [keysPy, List.nodup_cons] at hnd
    simp only [othersNoDt, Bool.and_eq_true] at hoth
    obtain ⟨hoth1, hoth2⟩ := hoth
    show setObjField (PyFlds.cons k (Json.toPy (PyVal.toJson v))
        (JsonObj.toPy (PyFlds.toJson tl))) "expires_at" (PyVal.dt t) = PyFlds.cons k v tl
    by_cases h : "expires_at" = k
    · subst h
      rw [lookupPy, if_pos rfl, Option.some.injEq] at hv
      subst hv
      show PyFlds.cons "expires_at" (PyVal.dt t) (JsonObj.toPy (PyFlds.toJson tl)) = _
      rw [toPyF_toJson tl (noDt_of_others tl "expires_at" hoth2 hnd.1)]
    · have hk2 : k ≠ "expires_at" := fun hh => h hh.symm
      rw [lookupPy, if_neg h] at hv
      rw [if_neg hk2] at hoth1
      show (if "expires_at" = k then
          PyFlds.cons k (PyVal.dt t) (JsonObj.toPy (PyFlds.toJson tl))
        else PyFlds.cons k (Json.toPy (PyVal.toJson v))
          (setObjField (JsonObj.toPy (PyFlds.toJson tl)) "expires_at" (PyVal.dt t))) =
        PyFlds.cons k v tl
      rw [if_neg h, toPy_toJson v hoth1, setObjField_toPy_toJson tl t hnd.2 hv hoth2]

/-- A serialized object is never the empty string. -/
theorem dumps_obj_ne_empty (l : JsonObj) : Json.dumps (Json.obj l) ≠ "" := by
  intro h
  have : ('{' :: (JsonObj.encFlds l ++ ['}'])) = ([] : List Char) := by
    have h2 : Json.dumps (Json.obj l) = String.mk ('{' :: (JsonObj.encFlds l ++ ['}'])) := rfl
    rw [h2] at h
    exact congrArg String.data h
  simp at this

theorem get_guild_config_cache_hit (beh : Beh) (st : St) (gid : Int) (key : String)
    (d v : Json) (h : lookupKV st.cache.guild_config (gid, key) = some v)
    (hv : v ≠ Json.null) : get_guild_config beh st gid key d = (v, st) := by
  unfold get_guild_config
  rw [h]
  simp [hv]

theorem get_guild_config_store_hit (beh : Beh) (st : St) (gid : Int) (key : String)
    (d : Json) (s : String) (hq : beh.queryExn = false)
    (hc : lookupKV st.cache.guild_config (gid, key) = none ∨
      lookupKV st.cache.guild_config (gid, key) = some Json.null)
    (hs : lookupKV st.store.guild_config (gid, key) = some s) :
    get_guild_config beh st gid key d =
      ((match loads s with | some j => j | none => Json.str s),
        ⟨st.store,
          { st.cache with
              guild_config := insertKV st.cache.guild_config (gid, key)
                (match loads s with | some j => j | none => Json.str s) }⟩) := by
  unfold get_guild_config
  rcases hc with hc | hc <;> rw [hc] <;> simp [hq, hs]

/-! ## The claims -/

/-- C1: for every tenant id, key and JSON-serializable value, setting the
config value and reading it back returns that value — both while the cache
entry written by `set_guild_config` is still warm, and after that entry
has been forcibly evicted so that `get_guild_config` falls back to the
persistent store, which holds the `json.dumps` text that the read
re-parses with `json.loads`. -/
theorem C1_set_then_get_roundtrip (st : St) (gid : Int) (key : String) (v d : Json) :
    (set_guild_config behOk st gid key v).1 = true ∧
    (get_guild_config behOk (set_guild_config behOk st gid key v).2 gid key d).1 = v ∧
    (get_guild_config behOk
      (evictConfigEntry (set_guild_config behOk st gid key v).2 gid key) gid key d).1 = v := by
  refine ⟨rfl, ?_, ?_⟩
  · by_cases hv : v = Json.null
    · subst hv
      have hstep := get_guild_config_store_hit behOk
        (set_guild_config behOk st gid key Json.null).2 gid key d
        (Json.dumps Json.null) rfl
        (Or.inr (lookupKV_insert_self st.cache.guild_config (gid, key) Json.null))
        (lookupKV_insert_self st.store.guild_config (gid, key) (Json.dumps Json.null))
      rw [hstep, loads_dumps]
    · have hstep := get_guild_config_cache_hit behOk
        (set_guild_config behOk st gid key v).2 gid key d v
        (lookupKV_insert_self st.cache.guild_config (gid, key) v) hv
      rw [hstep]
  · have hstep := get_guild_config_store_hit behOk
      (evictConfigEntry (set_guild_config behOk st gid key v).2 gid key) gid key d
      (Json.dumps v) rfl
      (Or.inl (lookupKV_delete_self (insertKV st.cache.guild_config (gid, key) v) (gid, key)))
      (lookupKV_insert_self st.store.guild_config (gid, key) (Json.dumps v))
    rw [hstep, loads_dumps]

/-- C4: a toggle never explicitly set reads as the supplied default `true`;
after a successful `set_log_event_enabled(..., false)` the read returns
`false`, and it still returns `false` with every cache entry cleared,
because the disabled state lives in the `log_event_toggles` table and the
read never depends on the cache at all. -/
theorem C4_toggle_default_and_persistence (beh : Beh) (st : St) (gid : Int)
    (eventKey : String) :
    (lookupKV st.store.log_event_toggles (gid, eventKey) = none →
      (get_log_event_enabled beh st gid eventKey true).1 = true) ∧
    (set_log_event_enabled behOk st gid eventKey false).1 = true ∧
    (∀ c : Cache,
      (get_log_event_enabled behOk
        ⟨(set_log_event_enabled behOk st gid eventKey false).2.1.store, c⟩
        gid eventKey true).1 = false) := by
  refine ⟨?_, rfl, ?_⟩
  · intro h
    unfold get_log_event_enabled
    cases hq : beh.queryExn
    · simp [h]
    · simp
  · intro c
    unfold get_log_event_enabled
    have h2 : lookupKV
        (set_log_event_enabled behOk st gid eventKey false).2.1.store.log_event_toggles
        (gid, eventKey) = some false :=
      lookupKV_insert_self st.store.log_event_toggles (gid, eventKey) false
    simp [h2]
    rfl

/-- C4 witness at a fresh deployment: the never-toggled key reads `true`,
and after disabling it the read over an emptied cache returns `false`. -/
theorem C4_witness :
    (get_log_event_enabled behOk emptySt 1 "member_join" true).1 = true ∧
    (get_log_event_enabled behOk
      ⟨(set_log_event_enabled behOk emptySt 1 "member_join" false).2.1.store,
        emptySt.cache⟩ 1 "member_join" true).1 = false :=
  ⟨(C4_toggle_default_and_persistence behOk emptySt 1 "member_join").1 rfl,
    (C4_toggle_default_and_persistence behOk emptySt 1 "member_join").2.2 emptySt.cache⟩

/-- C5: for the config, setting and botdetect set operations, the cache is
written only when the store upsert reports success — a failed or raising
upsert leaves the whole state (cache included) unchanged, while a
successful one leaves the written value in the cache. -/
theorem C5_cache_write_only_after_persist (beh : Beh) (st : St) (gid : Int)
    (key : String) (v : Json) :
    (beh.upsert ≠ UpsertRes.ok →
      (set_guild_config beh st gid key v).2 = st ∧
      (set_guild_setting beh st gid key v).2 = st ∧
      (set_botdetect_config beh st gid key v).2 = st) ∧
    (beh.upsert = UpsertRes.ok →
      lookupKV (set_guild_config beh st gid key v).2.cache.guild_config (gid, key)
          = some v ∧
      lookupKV (set_guild_setting beh st gid key v).2.cache.guild_setting (gid, key)
          = some v ∧
      lookupKV (set_botdetect_config beh st gid key v).2.cache.botdetect_config (gid, key)
          = some v) := by
  constructor
  · intro h
    unfold set_guild_config set_guild_setting set_botdetect_config
    cases hu : beh.upsert
    · exact absurd hu h
    · simp
    · simp
  · intro h
    unfold set_guild_config set_guild_setting set_botdetect_config
    rw [h]
    exact ⟨lookupKV_insert_self _ _ _, lookupKV_insert_self _ _ _,
      lookupKV_insert_self _ _ _⟩

/-- C5 witness: a failing upsert leaves the state untouched, a successful
one caches the written value. -/
theorem C5_witness :
    (set_guild_config ⟨false, UpsertRes.fail⟩ emptySt 1 "k" (Json.num 5)).2 = emptySt ∧
    lookupKV (set_guild_config behOk emptySt 1 "k" (Json.num 5)).2.cache.guild_config
      (1, "k") = some (Json.num 5) :=
  ⟨((C5_cache_write_only_after_persist ⟨false, UpsertRes.fail⟩ emptySt 1 "k"
      (Json.num 5)).1 (by decide)).1,
    ((C5_cache_write_only_after_persist behOk emptySt 1 "k" (Json.num 5)).2 rfl).1⟩

/-- C6: on a total miss — no cache entry and no store row — the config read
returns the caller-supplied default and the state, cache included, is
completely unchanged: the default is never written into the cache. -/
theorem C6_total_miss_returns_default (beh : Beh) (st : St) (gid : Int) (key : String)
    (d : Json) (hc : lookupKV st.cache.guild_config (gid, key) = none)
    (hs : lookupKV st.store.guild_config (gid, key) = none) :
    get_guild_config beh st gid key d = (d, st) := by
  unfold get_guild_config
  rw [hc]
  cases hq : beh.queryExn
  · simp [hs]
  · simp

/-- C6 witness at a fresh deployment. -/
theorem C6_witness : get_guild_config behOk emptySt 1 "k" (Json.str "dflt")
    = (Json.str "dflt", emptySt) :=
  C6_total_miss_returns_default behOk emptySt 1 "k" (Json.str "dflt") rfl rfl

/-- C2: every public operation of the store yields a plain value, boolean
or absent marker under every collaborator behaviour: a raising query makes
`get_guild_config` return the caller default with the state unchanged; a
raising upsert makes `set_guild_config` and `set_guild_api_key` return
`false` with the state unchanged; and a credential row whose ciphertext
fails to decrypt makes `get_guild_api_key` return `none` (the
logged-error path) instead of propagating the decryption failure. -/
theorem C2_errors_contained (beh : Beh) (st : St) (gid : Int) (key : String)
    (d v : Json) (encKey : Nat) (provider : String) (kd : KeyData) (row : ApiRow)
    (ct : String) :
    (beh.queryExn = true → lookupKV st.cache.guild_config (gid, key) = none →
      get_guild_config beh st gid key d = (d, st)) ∧
    (beh.upsert = UpsertRes.exn → set_guild_config beh st gid key v = (false, st)) ∧
    (lookupKV st.cache.guild_api_key gid = none →
      lookupKV st.store.guild_api_keys gid = some row →
      row.encrypted_api_key = some ct → ct ≠ "" → decrypt_data encKey ct = none →
      get_guild_api_key beh encKey st gid = (none, st)) ∧
    (beh.upsert = UpsertRes.exn →
      set_guild_api_key beh encKey st gid provider kd = (false, st)) := by
  refine ⟨?_, ?_, ?_, ?_⟩
  · intro hq hc
    unfold get_guild_config
    rw [hc]
    simp [hq]
  · intro hu
    unfold set_guild_config
    rw [hu]
  · intro hc hs hk hct hdec
    have hbody : getApiKeyFromRow encKey row = none := by
      unfold getApiKeyFromRow
      rw [hk]
      simp [hct, hdec]
    unfold get_guild_api_key
    rw [hc]
    cases hq : beh.queryExn
    · simp [hs, hbody]
    · simp
  · intro hu
    cases kd with
    | dict dd =>
      by_cases hp : provider = "github_copilot" <;>
        simp [set_guild_api_key, upsertApiRow, hu, hp]
    | str s => simp [set_guild_api_key, upsertApiRow, hu]
    | other => rfl

/-- A state holding one credential row whose ciphertext was produced under
a different key, used by the C2 witness. -/
def corruptApiSt : St :=
  ⟨⟨[], [], [], [], [(1, ⟨1, "openai", some "x", none, none, none⟩)]⟩, ⟨[], [], [], []⟩⟩

/-- C2 witness: a raising query, a raising upsert, and an undecryptable
ciphertext are all contained. -/
theorem C2_witness :
    get_guild_config ⟨true, UpsertRes.exn⟩ corruptApiSt 1 "k" (Json.num 0)
        = (Json.num 0, corruptApiSt) ∧
    set_guild_config ⟨true, UpsertRes.exn⟩ corruptApiSt 1 "k" (Json.num 1)
        = (false, corruptApiSt) ∧
    get_guild_api_key ⟨true, UpsertRes.exn⟩ 7 corruptApiSt 1 = (none, corruptApiSt) ∧
    set_guild_api_key ⟨true, UpsertRes.exn⟩ 7 corruptApiSt 1 "openai" KeyData.other
        = (false, corruptApiSt) :=
  ⟨(C2_errors_contained ⟨true, UpsertRes.exn⟩ corruptApiSt 1 "k" (Json.num 0) (Json.num 0)
      7 "openai" KeyData.other ⟨1, "openai", some "x", none, none, none⟩ "x").1 rfl rfl,
    (C2_errors_contained ⟨true, UpsertRes.exn⟩ corruptApiSt 1 "k" (Json.num 0) (Json.num 1)
      7 "openai" KeyData.other ⟨1, "openai", some "x", none, none, none⟩ "x").2.1 rfl,
    (C2_errors_contained ⟨true, UpsertRes.exn⟩ corruptApiSt 1 "k" (Json.num 0) (Json.num 0)
      7 "openai" KeyData.other ⟨1, "openai", some "x", none, none, none⟩ "x").2.2.1
      rfl (by decide) rfl (by decide) (by decide),
    (C2_errors_contained ⟨true, UpsertRes.exn⟩ corruptApiSt 1 "k" (Json.num 0) (Json.num 0)
      7 "openai" KeyData.other ⟨1, "openai", some "x", none, none, none⟩ "x").2.2.2 rfl⟩

/-- C3 counterexample: the toggle operations do not follow the cache-aside
discipline the claim describes.  At this concrete input,
`set_log_event_enabled` leaves the cache exactly as it was, and a
subsequent `get_log_event_enabled` — with the toggle row present in the
store, i.e. as warm as this pipeline ever gets — still issues a store
query and makes no cache call at all (its trace is exactly one
`storeQuery`), so the read is not answered from the cache. -/
theorem C3_counterexample :
    ((set_log_event_enabled behOk emptySt 1 "message_delete" false).2.1.cache
      = emptySt.cache) ∧
    ((get_log_event_enabled behOk
        (set_log_event_enabled behOk emptySt 1 "message_delete" false).2.1
        1 "message_delete" true).2 = [Call.storeQuery "log_event_toggles"]) ∧
    ((get_log_event_enabled behOk
        (set_log_event_enabled behOk emptySt 1 "message_delete" false).2.1
        1 "message_delete" true).1 = false) :=
  ⟨rfl, rfl, by decide⟩

/-- C3 amended: rather than following the config namespace's cache-aside
discipline, the toggle operations bypass the cache entirely — every read
issues exactly one store query and depends only on the store (its result
is the same for any cache contents), and the write performs exactly one
upsert and never touches the cache. -/
theorem C3_toggles_bypass_cache (beh : Beh) (st : St) (gid : Int) (eventKey : String)
    (dflt en : Bool) :
    (get_log_event_enabled beh st gid eventKey dflt).2
        = [Call.storeQuery "log_event_toggles"] ∧
    (∀ c : Cache, get_log_event_enabled beh ⟨st.store, c⟩ gid eventKey dflt
        = get_log_event_enabled beh st gid eventKey dflt) ∧
    (set_log_event_enabled beh st gid eventKey en).2.1.cache = st.cache ∧
    (set_log_event_enabled beh st gid eventKey en).2.2
        = [Call.storeUpsert "log_event_toggles"] := by
  refine ⟨?_, fun c => rfl, ?_, ?_⟩
  · unfold get_log_event_enabled
    cases hq : beh.queryExn
    · cases hl : lookupKV st.store.log_event_toggles (gid, eventKey) <;> simp [hl]
    · simp
  · unfold set_log_event_enabled
    cases hu : beh.upsert <;> rfl
  · unfold set_log_event_enabled
    cases hu : beh.upsert <;> rfl

/-- C8: with no delivery target the relay makes zero outbound transport
calls; with a target but the event key toggled off it also makes zero;
with a truthy target and the key enabled (or never toggled, via the
default) and the shared session open, each matching event makes exactly
one outbound call. -/
theorem C8_relay_gating (rs : RelayState) (gid : Int) (eventKey : String) :
    (get_logging_webhook rs gid = none → relay_event rs gid eventKey = 0) ∧
    (∀ url, get_logging_webhook rs gid = some url →
      is_log_event_enabled rs gid eventKey true = false →
      relay_event rs gid eventKey = 0) ∧
    (∀ url, get_logging_webhook rs gid = some url → url ≠ "" →
      is_log_event_enabled rs gid eventKey true = true → rs.sessionOpen = true →
      relay_event rs gid eventKey = 1) := by
  refine ⟨?_, ?_, ?_⟩
  · intro h
    unfold relay_event check_log_enabled
    rw [h]
    rfl
  · intro url hw ht
    unfold relay_event check_log_enabled
    rw [hw, ht]
    cases hstr : strTruthy (some url) <;> simp
  · intro url hw hu ht hs
    have hstr : strTruthy (some url) = true := by simp [strTruthy, hu]
    unfold relay_event check_log_enabled send_log_embed
    rw [hw, hstr, ht, hs]
    rfl

/-- C8 witness: no target → 0 calls; target with the key disabled → 0
calls; target with the key never toggled → exactly 1 call. -/
theorem C8_witness :
    relay_event ⟨[], [], true⟩ 1 "message_delete" = 0 ∧
    relay_event ⟨[(1, "https://hook.example/abc")], [((1, "message_delete"), false)], true⟩
      1 "message_delete" = 0 ∧
    relay_event ⟨[(1, "https://hook.example/abc")], [], true⟩ 1 "message_delete" = 1 :=
  ⟨(C8_relay_gating ⟨[], [], true⟩ 1 "message_delete").1 rfl,
    (C8_relay_gating ⟨[(1, "https://hook.example/abc")],
      [((1, "message_delete"), false)], true⟩ 1 "message_delete").2.1
      "https://hook.example/abc" (by decide) (by decide),
    (C8_relay_gating ⟨[(1, "https://hook.example/abc")], [], true⟩ 1 "message_delete").2.2
      "https://hook.example/abc" (by decide) (by decide) rfl rfl⟩

/-- C9: a deleted-message content field longer than 1000 characters is
delivered with length at most 1000 and ends in the `"..."` marker; a
before/after comparison field longer than 500 characters is delivered
with length at most 500 and ends in the marker; content at or under its
bound is delivered unmodified. -/
theorem C9_truncation_bounds (content : List Char) :
    (1000 < content.length →
      (truncate_delete_content content).length ≤ 1000 ∧
      ['.', '.', '.'] <:+ truncate_delete_content content) ∧
    (content.length ≤ 1000 → truncate_delete_content content = content) ∧
    (500 < content.length →
      (truncate_edit_content content).length ≤ 500 ∧
      ['.', '.', '.'] <:+ truncate_edit_content content) ∧
    (content.length ≤ 500 → truncate_edit_content content = content) := by
  refine ⟨?_, ?_, ?_, ?_⟩
  · intro h
    unfold truncate_delete_content
    rw [if_pos h]
    constructor
    · simp only [List.length_append, List.length_take, List.length_cons, List.length_nil]
      omega
    · exact ⟨content.take 997, rfl⟩
  · intro h
    unfold truncate_delete_content
    rw [if_neg (by omega)]
  · intro h
    unfold truncate_edit_content
    rw [if_pos h]
    constructor
    · simp only [List.length_append, List.length_take, List.length_cons, List.length_nil]
      omega
    · exact ⟨content.take 497, rfl⟩
  · intro h
    unfold truncate_edit_content
    rw [if_neg (by omega)]

/-- C9 witness: an over-long deleted-message field is truncated to the
bound with the marker, a short one is untouched; likewise for the edit
comparison fields. -/
theorem C9_witness :
    (truncate_delete_content (List.replicate 1001 'a')).length ≤ 1000 ∧
    ['.', '.', '.'] <:+ truncate_delete_content (List.replicate 1001 'a') ∧
    truncate_delete_content ['a', 'b'] = ['a', 'b'] ∧
    (truncate_edit_content (List.replicate 501 'b')).length ≤ 500 ∧
    ['.', '.', '.'] <:+ truncate_edit_content (List.replicate 501 'b') ∧
    truncate_edit_content ['a'] = ['a'] := by
  have h1 := (C9_truncation_bounds (List.replicate 1001 'a')).1
    (by rw [List.length_replicate]; omega)
  have h2 := (C9_truncation_bounds ['a', 'b']).2.1 (by decide)
  have h3 := (C9_truncation_bounds (List.replicate 501 'b')).2.2.1
    (by rw [List.length_replicate]; omega)
  have h4 := (C9_truncation_bounds ['a']).2.2.2 (by decide)
  exact ⟨h1.1, h1.2, h2, h3.1, h3.2, h4⟩

/-- C10: a payload whose shape does not match the provider — a structured
dict for any provider other than `"github_copilot"`, or a value that is
neither a string nor a dict — makes `set_guild_api_key` return `false`
with no store write and no cache invalidation: the state is returned
exactly as it was. -/
theorem C10_mismatched_payload_rejected (beh : Beh) (encKey : Nat) (st : St)
    (gid : Int) (provider : String) (d : PyFlds) :
    (provider ≠ "github_copilot" →
      set_guild_api_key beh encKey st gid provider (KeyData.dict d) = (false, st)) ∧
    set_guild_api_key beh encKey st gid provider KeyData.other = (false, st) := by
  constructor
  · intro h
    simp [set_guild_api_key, h]
  · rfl

theorem get_guild_api_key_store_hit (beh : Beh) (encKey : Nat) (st : St) (gid : Int)
    (row : ApiRow) (gk : GuildAPIKey)
    (hc : lookupKV st.cache.guild_api_key gid = none) (hq : beh.queryExn = false)
    (hs : lookupKV st.store.guild_api_keys gid = some row)
    (hb : getApiKeyFromRow encKey row = some gk) :
    get_guild_api_key beh encKey st gid =
      (some gk, ⟨st.store,
        { st.cache with guild_api_key := insertKV st.cache.guild_api_key gid gk }⟩) := by
  unfold get_guild_api_key
  rw [hc]
  simp [hq, hs, hb]

/-- C7 counterexample: the claim promises the timestamp round-trip for any
timestamp field of the stored document, but the code only converts the
`expires_at` field back.  Storing a `github_copilot` credential whose
`issued_at` field is the datetime 2024-01-02 03:04:05 and reading it back
yields that field as the raw ISO string, which is not a timestamp value. -/
theorem C7_counterexample :
    (get_guild_api_key behOk 7
        (set_guild_api_key behOk 7 emptySt 1 "github_copilot"
          (KeyData.dict (PyFlds.cons "issued_at"
            (PyVal.dt ⟨2024, 1, 2, 3, 4, 5⟩) PyFlds.nil))).2 1).1 =
      some ⟨1, "github_copilot", none,
        some (PyVal.obj (PyFlds.cons "issued_at"
          (PyVal.str "2024-01-02T03:04:05") PyFlds.nil)), none, none⟩ ∧
    PyVal.str "2024-01-02T03:04:05" ≠ PyVal.dt ⟨2024, 1, 2, 3, 4, 5⟩ := by
  exact ⟨by decide, by decide⟩

/-- C7 amended: storing a structured `github_copilot` credential and
reading it back restores exactly the `expires_at` timestamp field — for a
dict with distinct keys whose `expires_at` value is a valid datetime and
whose other values are datetime-free, the retrieved `github_auth_info` is
the original dict, with `expires_at` as a datetime again.  (Timestamps
under any other key come back as their ISO strings, as the counterexample
shows.) -/
theorem C7_expires_at_roundtrip (st : St) (gid : Int) (encKey : Nat) (d : PyFlds)
    (t : DateTime) (hnd : (keysPy d).Nodup)
    (hv : lookupPy d "expires_at" = some (PyVal.dt t)) (hval : t.validB = true)
    (hoth : othersNoDt d "expires_at" = true) :
    (set_guild_api_key behOk encKey st gid "github_copilot" (KeyData.dict d)).1 = true ∧
    (get_guild_api_key behOk encKey
        (set_guild_api_key behOk encKey st gid "github_copilot" (KeyData.dict d)).2
        gid).1 =
      some ⟨gid, "github_copilot", none, some (PyVal.obj d), none, none⟩ := by
  have hfix : fixExpires (Json.obj (PyFlds.toJson d)) = some (PyVal.obj d) := by
    have hl : lookupObj (PyFlds.toJson d) "expires_at" = some (Json.str t.isoformat) := by
      rw [lookupObj_toJson, hv]
      rfl
    unfold fixExpires
    show (match lookupObj (PyFlds.toJson d) "expires_at" with
        | some (Json.str s) =>
          (match fromisoformat s with
          | some t2 => some (PyVal.obj (setObjField (JsonObj.toPy (PyFlds.toJson d))
              "expires_at" (PyVal.dt t2)))
          | none => none)
        | some _ => none
        | none => some (PyVal.obj (JsonObj.toPy (PyFlds.toJson d)))) = some (PyVal.obj d)
    rw [hl]
    show (match fromisoformat t.isoformat with
        | some t2 => some (PyVal.obj (setObjField (JsonObj.toPy (PyFlds.toJson d))
            "expires_at" (PyVal.dt t2)))
        | none => none) = some (PyVal.obj d)
    rw [fromisoformat_isoformat t hval]
    show some (PyVal.obj (setObjField (JsonObj.toPy (PyFlds.toJson d))
        "expires_at" (PyVal.dt t))) = _
    rw [setObjField_toPy_toJson d t hnd hv hoth]
  have hne : Json.dumps (Json.obj (JsonObj.cons "data"
      (Json.str (encrypt_data encKey (Json.dumps (Json.obj (PyFlds.toJson d)))))
      JsonObj.nil)) ≠ "" := dumps_obj_ne_empty _
  have hlk : lookupObj (JsonObj.cons "data"
      (Json.str (encrypt_data encKey (Json.dumps (Json.obj (PyFlds.toJson d)))))
      JsonObj.nil) "data" =
      some (Json.str (encrypt_data encKey (Json.dumps (Json.obj (PyFlds.toJson d))))) := rfl
  have hbody : getApiKeyFromRow encKey
      ⟨gid, "github_copilot", none,
        some (Json.dumps (Json.obj (JsonObj.cons "data"
          (Json.str (encrypt_data encKey (Json.dumps (Json.obj (PyFlds.toJson d)))))
          JsonObj.nil))), none, none⟩ =
      some ⟨gid, "github_copilot", none, some (PyVal.obj d), none, none⟩ := by
    unfold getApiKeyFromRow
    simp only [optBind_some, hne, loads_dumps, hlk, decrypt_encrypt, hfix,
      Option.map_some', ne_eq, not_false_eq_true, if_neg, Option.some_bind]
  constructor
  · rfl
  · have hcache : lookupKV (set_guild_api_key behOk encKey st gid "github_copilot"
        (KeyData.dict d)).2.cache.guild_api_key gid = none :=
      lookupKV_delete_self st.cache.guild_api_key gid
    have hstore : lookupKV (set_guild_api_key behOk encKey st gid "github_copilot"
        (KeyData.dict d)).2.store.guild_api_keys gid =
        some ⟨gid, "github_copilot", none,
          some (Json.dumps (Json.obj (JsonObj.cons "data"
            (Json.str (encrypt_data encKey (Json.dumps (Json.obj (PyFlds.toJson d)))))
            JsonObj.nil))), none, none⟩ :=
      lookupKV_insert_self st.store.guild_api_keys gid _
    rw [get_guild_api_key_store_hit behOk encKey _ gid _ _ hcache rfl hstore hbody]

/-- C7 witness: a two-field Copilot credential whose `expires_at` is
2025-06-30 12:00:00 and whose token is a plain string round-trips
exactly. -/
theorem C7_witness :
    (set_guild_api_key behOk 7 emptySt 1 "github_copilot"
      (KeyData.dict (PyFlds.cons "expires_at" (PyVal.dt ⟨2025, 6, 30, 12, 0, 0⟩)
        (PyFlds.cons "access_token" (PyVal.str "tok") PyFlds.nil)))).1 = true ∧
    (get_guild_api_key behOk 7
        (set_guild_api_key behOk 7 emptySt 1 "github_copilot"
          (KeyData.dict (PyFlds.cons "expires_at" (PyVal.dt ⟨2025, 6, 30, 12, 0, 0⟩)
            (PyFlds.cons "access_token" (PyVal.str "tok") PyFlds.nil)))).2 1).1 =
      some ⟨1, "github_copilot", none,
        some (PyVal.obj (PyFlds.cons "expires_at" (PyVal.dt ⟨2025, 6, 30, 12, 0, 0⟩)
          (PyFlds.cons "access_token" (PyVal.str "tok") PyFlds.nil))), none, none⟩ :=
  C7_expires_at_roundtrip emptySt 1 7
    (PyFlds.cons "expires_at" (PyVal.dt ⟨2025, 6, 30, 12, 0, 0⟩)
      (PyFlds.cons "access_token" (PyVal.str "tok") PyFlds.nil))
    ⟨2025, 6, 30, 12, 0, 0⟩ (by decide) rfl (by decide) (by decide)

/-- C10 witness: a dict payload for provider `"openai"` and a non-string,
non-dict payload are both rejected without touching the state. -/
theorem C10_witness :
    set_guild_api_key behOk 7 emptySt 1 "openai"
        (KeyData.dict (PyFlds.cons "token" (PyVal.str "t") PyFlds.nil))
      = (false, emptySt) ∧
    set_guild_api_key behOk 7 emptySt 1 "openai" KeyData.other = (false, emptySt) :=
  ⟨(C10_mismatched_payload_rejected behOk 7 emptySt 1 "openai"
      (PyFlds.cons "token" (PyVal.str "t") PyFlds.nil)).1 (by decide),
    (C10_mismatched_payload_rejected behOk 7 emptySt 1 "openai" PyFlds.nil).2⟩

end OpenGuard
